import Mathlib

/-!
# Verification of the reaper-theme-packer core against its specification

This development shallowly embeds the Rust sources of the
`reaper-theme-packer` repository (`src/interpreter.rs`, `src/parser.rs`,
`src/preprocess.rs`) in Lean 4 and settles a list of claims about them.

Modelling conventions used throughout:

* machine integers (`u8`, `u32`, `i64`) are modelled as `Nat` / `Int`; all
  places where the Rust code masks or shifts (`x & 0xff0000 >> 16`) are
  rendered with the arithmetically equal `x / 2^16 % 2^8` form;
* fallible Rust functions returning `Result`/`mlua::Result` are modelled with
  `Except`; a Rust `panic!`/`todo!` is modelled as a distinct constructor so
  that an aborting panic is distinguishable from a returned structured error;
* the Lua virtual machine (`mlua`), the filesystem, and glob enumeration are
  external to the repository; they are modelled as oracle functions passed
  explicitly to the functions that consult them;
* text is modelled as `List Char` wherever the parser or the output fragment
  list manipulates it, and as `String` for messages, paths and map keys.
-/

/-! ## Color value model (`src/interpreter.rs`)

`RGB` and `RGBA` are tuple structs of `u8` channels.  Channels are modelled
as `Nat`; every construction site in the source masks its input to 8 bits,
which the embedding reproduces.  -/

/-- `struct RGB(u8, u8, u8)` from `src/interpreter.rs`. -/
structure RGB where
  r : Nat
  g : Nat
  b : Nat
deriving DecidableEq, Repr

/-- `struct RGBA(u8, u8, u8, u8)` from `src/interpreter.rs`. -/
structure RGBA where
  r : Nat
  g : Nat
  b : Nat
  a : Nat
deriving DecidableEq, Repr

/-- `RGB::value`: `((r as u32) << 16) + ((g as u32) << 8) + b`. -/
def RGB.value (c : RGB) : Nat := c.r * 2 ^ 16 + c.g * 2 ^ 8 + c.b

/-- `RGB::value_rev`: `((b as u32) << 16) + ((g as u32) << 8) + r`. -/
def RGB.value_rev (c : RGB) : Nat := c.b * 2 ^ 16 + c.g * 2 ^ 8 + c.r

/-- `RGB::arr`: `format!("{} {} {}", r, g, b)`. -/
def RGB.arr (c : RGB) : String := s!"{c.r} {c.g} {c.b}"

/-- `RGB::with_alpha`. -/
def RGB.with_alpha (c : RGB) (alpha : Nat) : RGBA := ⟨c.r, c.g, c.b, alpha⟩

/-- `RGB::negative`: `self.value_rev() as i64 - 0x1000000` (the `i64` result
is modelled as `Int`). -/
def RGB.negative (c : RGB) : Int := (c.value_rev : Int) - 0x1000000

/-- `RGBA::value`. -/
def RGBA.value (c : RGBA) : Nat :=
  c.r * 2 ^ 24 + c.g * 2 ^ 16 + c.b * 2 ^ 8 + c.a

/-- `RGBA::value_rev`: `(a << 24) | (b << 16) | (g << 8) | r` (the source
uses `+` on shifted channels). -/
def RGBA.value_rev (c : RGBA) : Nat :=
  c.a * 2 ^ 24 + c.b * 2 ^ 16 + c.g * 2 ^ 8 + c.r

/-- `RGBA::arr`. -/
def RGBA.arr (c : RGBA) : String := s!"{c.r} {c.g} {c.b} {c.a}"

/-- `RGBA::with_alpha`. -/
def RGBA.with_alpha (c : RGBA) (alpha : Nat) : RGBA := ⟨c.r, c.g, c.b, alpha⟩

/-- `RGBA::to_rgb`: `RGB(self.0, self.1, self.2)` — drops the alpha
channel. -/
def RGBA.to_rgb (c : RGBA) : RGB := ⟨c.r, c.g, c.b⟩

/-- `enum ColorError` from `src/interpreter.rs` (payloads kept where a claim
inspects them). -/
inductive ColorError where
  | valueOutOfBounds (value : Nat) (channels : Nat)
  | invalidChannels (channels : Nat)
  | negativeRGBA
  | arithmeticChannelsMismatch
  | arithmeticOverflow
  | arithmeticUnderflow
deriving DecidableEq, Repr

/-- `enum Color { RGB(RGB), RGBA(RGBA) }`. -/
inductive Color where
  | rgb (c : RGB)
  | rgba (c : RGBA)
deriving DecidableEq, Repr

/-- `Color::new_with_channels(value, channels)`.  The Rust masks/shifts
`(value & 0xff0000) >> 16` etc. are rendered as `value / 2^16 % 2^8`. -/
def Color.new_with_channels (value : Nat) (channels : Nat) :
    Except ColorError Color :=
  match channels with
  | 3 =>
      if value ≤ 0xffffff then
        .ok (.rgb ⟨value / 2 ^ 16 % 2 ^ 8, value / 2 ^ 8 % 2 ^ 8, value % 2 ^ 8⟩)
      else
        .error (.valueOutOfBounds value 3)
  | 4 =>
      .ok (.rgba ⟨value / 2 ^ 24 % 2 ^ 8, value / 2 ^ 16 % 2 ^ 8,
        value / 2 ^ 8 % 2 ^ 8, value % 2 ^ 8⟩)
  | x => .error (.invalidChannels x)

/-- `Color::from_value(value)`. -/
def Color.from_value (value : Nat) : Except ColorError Color :=
  if value ≤ 0xffffff then Color.new_with_channels value 3
  else Color.new_with_channels value 4

/-- The Lua builtin `color(value, [channels])` registered in
`interpreter::new`: with an explicit channel count it calls
`new_with_channels`, otherwise `from_value`. -/
def luaColor (value : Nat) (channels : Option Nat) : Except ColorError Color :=
  match channels with
  | some ch => Color.new_with_channels value ch
  | none => Color.from_value value

/-! ### Script-visible method tables

`impl mlua::UserData for RGB` registers the methods `arr`, `with_alpha`,
`negative`, `hex`; `impl mlua::UserData for RGBA` registers `arr`,
`with_alpha`, `to_rgb`, `hex`.  Calling an unregistered method on a Lua
userdata raises a runtime error; the dispatch below models that surface. -/

/-- Method names registered on `RGB` userdata (order of `add_method` calls in
`src/interpreter.rs`). -/
def rgbMethods : List String := ["arr", "with_alpha", "negative", "hex"]

/-- Method names registered on `RGBA` userdata. -/
def rgbaMethods : List String := ["arr", "with_alpha", "to_rgb", "hex"]

/-- Values a color method call can produce. -/
inductive MethodValue where
  | vStr (s : String)
  | vRGB (c : RGB)
  | vRGBA (c : RGBA)
  | vInt (n : Int)
deriving DecidableEq, Repr

/-- Hex rendering of `RGB` (`UpperHex` impl): channels in reversed order,
each zero padded to two digits. -/
def RGB.hex (c : RGB) : String :=
  let pad2 := fun (n : Nat) =>
    let h := Nat.toDigits 16 n
    String.mk (if h.length < 2 then '0' :: h else h) |>.toUpper
  pad2 c.b ++ pad2 c.g ++ pad2 c.r

/-- Hex rendering of `RGBA` (`UpperHex` impl): channels in reversed order. -/
def RGBA.hex (c : RGBA) : String :=
  let pad2 := fun (n : Nat) =>
    let h := Nat.toDigits 16 n
    String.mk (if h.length < 2 then '0' :: h else h) |>.toUpper
  pad2 c.a ++ pad2 c.b ++ pad2 c.g ++ pad2 c.r

/-- Dispatch of a zero/one-argument method call on an `RGB` userdata.
Methods absent from the registration table raise a Lua runtime error
(modelled message). -/
def callRGBMethod (c : RGB) (m : String) (arg : Option Nat) :
    Except String MethodValue :=
  if m = "arr" then .ok (.vStr c.arr)
  else if m = "with_alpha" then
    match arg with
    | some alpha => .ok (.vRGBA (c.with_alpha alpha))
    | none => .error "bad argument to with_alpha"
  else if m = "negative" then .ok (.vInt c.negative)
  else if m = "hex" then .ok (.vStr c.hex)
  else .error s!"attempt to call a nil value (method {m})"

/-- Dispatch of a zero/one-argument method call on an `RGBA` userdata.  Note
`negative` is not registered for `RGBA`, so calling it is an error. -/
def callRGBAMethod (c : RGBA) (m : String) (arg : Option Nat) :
    Except String MethodValue :=
  if m = "arr" then .ok (.vStr c.arr)
  else if m = "with_alpha" then
    match arg with
    | some alpha => .ok (.vRGBA (c.with_alpha alpha))
    | none => .error "bad argument to with_alpha"
  else if m = "to_rgb" then .ok (.vRGB c.to_rgb)
  else if m = "hex" then .ok (.vStr c.hex)
  else .error s!"attempt to call a nil value (method {m})"

/-! ## `blend(mode, frac)` (`src/interpreter.rs`, inside `new`)

The Rust closure receives `frac : f32`.  Every step it performs on `frac`
(`0 ≤ frac ≤ 1` comparison, `frac * 256f32` — a multiplication by a power of
two, hence exact in `f32` — and `.round()`, which rounds half away from
zero) is exact on the rational value the float denotes, so the fraction is
modelled as `ℚ`; `round` for nonnegative arguments is `⌊x + 1/2⌋`. -/

/-- The valid blend-mode list exactly as formatted in the error message. -/
def blendModeList : String :=
  "\"normal\", \"add\", \"overlay\", \"multiply\", \"dodge\", \"hsv\""

/-- Mode table from the `match mode.as_str()` in `blend`. -/
def blendModeCode (mode : String) : Option Nat :=
  if mode = "normal" then some 0b00000000
  else if mode = "add" then some 0b00000001
  else if mode = "overlay" then some 0b00000100
  else if mode = "multiply" then some 0b00000011
  else if mode = "dodge" then some 0b00000010
  else if mode = "hsv" then some 0b11111110
  else none

/-- The Lua builtin `blend(mode, frac)`:
`0b100000000000000000 + (round(frac*256) << 8) + mode_code`, with the two
error paths of the source. -/
def blend (mode : String) (frac : ℚ) : Except String Nat :=
  if ¬(0 ≤ frac ∧ frac ≤ 1) then
    .error s!"frac `{frac}` must be a value between 0.0 and 1.0"
  else
    let fracN : Nat := (⌊frac * 256 + 1 / 2⌋).toNat
    match blendModeCode mode with
    | some code => .ok (0b100000000000000000 + fracN * 2 ^ 8 + code)
    | none => .error (s!"mode `{mode}` must be one of: " ++ blendModeList)

/-! ### Disjoint bit-or helper

The claim about `blend` states the result as
`0x20000 | (numerator << 8) | mode_code`; the code computes the same value
with `+` because the three fields occupy disjoint bit ranges.  The helper
below justifies the bridge. -/

theorem shiftLeft_lor_eq_add (k a b : Nat) (hb : b < 2 ^ k) :
    (a <<< k) ||| b = a <<< k + b := by
  induction k generalizing a b with
  | zero =>
      interval_cases b
      simp [Nat.shiftLeft_eq]
  | succ k ih =>
      have hb2 : b / 2 < 2 ^ k := by
        apply Nat.div_lt_of_lt_mul
        calc b < 2 ^ (k + 1) := hb
        _ = 2 * 2 ^ k := by ring
      have hshift : a <<< (k + 1) = Nat.bit false (a <<< k) := by
        simp only [Nat.shiftLeft_eq, Nat.bit, Bool.cond_false]
        ring
      have hbdecomp : b = Nat.bit (b.testBit 0) (b >>> 1) :=
        (Nat.bit_testBit_zero_shiftRight_one b).symm
      calc (a <<< (k + 1)) ||| b
      _ = Nat.bit false (a <<< k) ||| Nat.bit (b.testBit 0) (b >>> 1) := by
        rw [← hshift, ← hbdecomp]
      _ = Nat.bit (false || b.testBit 0) ((a <<< k) ||| (b >>> 1)) :=
        Nat.lor_bit false (a <<< k) (b.testBit 0) (b >>> 1)
      _ = Nat.bit (b.testBit 0) (a <<< k + b >>> 1) := by
        rw [Bool.false_or, ih _ _ (by simpa [Nat.shiftRight_one] using hb2)]
      _ = a <<< (k + 1) + b := by
        rw [Nat.bit_val]
        conv_rhs => rw [hbdecomp]
        rw [Nat.bit_val]
        simp only [Nat.shiftLeft_eq]
        ring

theorem blend_fields_or_eq_add (n m : Nat) (hn : n ≤ 256) (hm : m < 256) :
    0x20000 ||| (n <<< 8) ||| m = 0x20000 + n * 2 ^ 8 + m := by
  have h1 : (0x20000 : Nat) = 1 <<< 17 := by norm_num [Nat.shiftLeft_eq]
  have hlt : n <<< 8 < 2 ^ 17 := by
    rw [Nat.shiftLeft_eq]
    calc n * 2 ^ 8 ≤ 256 * 2 ^ 8 := by
          exact Nat.mul_le_mul_right _ hn
    _ < 2 ^ 17 := by norm_num
  have h2 : (0x20000 : Nat) ||| (n <<< 8) = 0x20000 + n * 2 ^ 8 := by
    rw [h1, shiftLeft_lor_eq_add 17 1 (n <<< 8) hlt, Nat.shiftLeft_eq,
      Nat.shiftLeft_eq]
  have h3 : (0x20000 : Nat) + n * 2 ^ 8 = (0x200 + n) <<< 8 := by
    rw [Nat.shiftLeft_eq]
    ring
  rw [h2, h3, shiftLeft_lor_eq_add 8 _ m hm, Nat.shiftLeft_eq]

/-! ## Descriptor parser (`src/parser.rs`)

The nom parser combinators are embedded as functions
`List Char → PRes α` where a success records the consumed prefix, the
remaining input, and the parsed value.  nom distinguishes recoverable
errors (`Err::Error`, which `alt`/`opt` may catch) from unrecoverable
failures (`Err::Failure`, produced by the explicit
`Err::Failure(...)` constructions in the source); `PRes.err` and
`PRes.fail` model the two.  Error payloads (`ParseError` variants with
their `ErrorLocation`s) are not inspected by any claim and are dropped.

The repetition combinators (`many0`, `many1`) and the recursive
`brace_pair` grammar are given explicit fuel; nom aborts a repetition
whose body succeeds without consuming input, which the embedding
reproduces, so with the fuel chosen in `parse_rtconfig` (input length
plus one) the fuel never runs out on a path nom itself would complete. -/

/-- Result of running an embedded nom parser. -/
inductive PRes (α : Type) where
  | ok (consumed : List Char) (rest : List Char) (val : α)
  | err
  | fail
deriving Repr

/-- An embedded parser. -/
def P (α : Type) : Type := List Char → PRes α

/-- `nom::character::complete::char`. -/
def pchar (c : Char) : P Unit := fun s =>
  match s with
  | [] => .err
  | x :: r => if x = c then .ok [c] r () else .err

/-- `nom::bytes::complete::tag`. -/
def ptag (t : List Char) : P Unit := fun s =>
  if t.isPrefixOf s then .ok t (s.drop t.length) () else .err

/-- `nom::bytes::complete::take_till` — consumes (possibly zero) characters
until the predicate holds; the value is the consumed slice. -/
def ptakeTill (f : Char → Bool) : P (List Char) := fun s =>
  .ok (s.takeWhile (fun x => ! f x)) (s.dropWhile (fun x => ! f x))
    (s.takeWhile (fun x => ! f x))

/-- `nom::bytes::complete::take_till1` — like `take_till` but errors when
nothing is consumed. -/
def ptakeTill1 (f : Char → Bool) : P (List Char) := fun s =>
  if (s.takeWhile (fun x => ! f x)).isEmpty then .err
  else
    .ok (s.takeWhile (fun x => ! f x)) (s.dropWhile (fun x => ! f x))
      (s.takeWhile (fun x => ! f x))

/-- `nom::bytes::complete::take(1usize)`. -/
def ptake1 : P (List Char) := fun s =>
  match s with
  | [] => .err
  | x :: r => .ok [x] r [x]

/-- `nom::character::complete::space0` (spaces and tabs). -/
def pspace0 : P Unit := fun s =>
  .ok (s.takeWhile (fun (x : Char) => x == ' ' || x == '\t'))
    (s.dropWhile (fun (x : Char) => x == ' ' || x == '\t')) ()

/-- `nom::character::complete::space1`. -/
def pspace1 : P Unit := fun s =>
  if (s.takeWhile (fun (x : Char) => x == ' ' || x == '\t')).isEmpty then .err
  else
    .ok (s.takeWhile (fun (x : Char) => x == ' ' || x == '\t'))
      (s.dropWhile (fun (x : Char) => x == ' ' || x == '\t')) ()

/-- `nom::character::complete::alpha1` (ASCII letters). -/
def palpha1 : P (List Char) := fun s =>
  if (s.takeWhile (fun (x : Char) =>
      decide (('a' ≤ x ∧ x ≤ 'z') ∨ ('A' ≤ x ∧ x ≤ 'Z')))).isEmpty then .err
  else
    .ok
      (s.takeWhile (fun (x : Char) =>
        decide (('a' ≤ x ∧ x ≤ 'z') ∨ ('A' ≤ x ∧ x ≤ 'Z'))))
      (s.dropWhile (fun (x : Char) =>
        decide (('a' ≤ x ∧ x ≤ 'z') ∨ ('A' ≤ x ∧ x ≤ 'Z'))))
      (s.takeWhile (fun (x : Char) =>
        decide (('a' ≤ x ∧ x ≤ 'z') ∨ ('A' ≤ x ∧ x ≤ 'Z'))))

/-- `map` on a parser. -/
def pmap {α β : Type} (p : P α) (f : α → β) : P β := fun s =>
  match p s with
  | .ok c r v => .ok c r (f v)
  | .err => .err
  | .fail => .fail

/-- Sequencing two parsers (nom tuples/`pair`): consumed prefixes
concatenate. -/
def pseq {α β : Type} (p : P α) (q : P β) : P (α × β) := fun s =>
  match p s with
  | .ok c r v =>
      match q r with
      | .ok c2 r2 w => .ok (c ++ c2) r2 (v, w)
      | .err => .err
      | .fail => .fail
  | .err => .err
  | .fail => .fail

/-- `nom::branch::alt` for two alternatives: the second runs only when the
first returns a recoverable error. -/
def palt {α : Type} (p q : P α) : P α := fun s =>
  match p s with
  | .err => q s
  | x => x

/-- `nom::combinator::opt`: catches recoverable errors only. -/
def popt {α : Type} (p : P α) : P (Option α) := fun s =>
  match p s with
  | .ok c r v => .ok c r (some v)
  | .err => .ok [] s none
  | .fail => .fail

/-- `preceded`. -/
def pprec {α β : Type} (p : P α) (q : P β) : P β := pmap (pseq p q) (·.2)

/-- `terminated`. -/
def pterm {α β : Type} (p : P α) (q : P β) : P α := pmap (pseq p q) (·.1)

/-- `delimited`. -/
def pdelim {α β γ : Type} (l : P α) (p : P β) (r : P γ) : P β :=
  pmap (pseq l (pseq p r)) (·.2.1)

/-- `recognize`: the value becomes the consumed slice. -/
def precog {α : Type} (p : P α) : P (List Char) := fun s =>
  match p s with
  | .ok c r _ => .ok c r c
  | .err => .err
  | .fail => .fail

/-- The `map_err` pattern of `include_directive`/`resource_directive`:
`Err::Error` is upgraded to `Err::Failure`, other outcomes pass through. -/
def pcommit {α : Type} (p : P α) : P α := fun s =>
  match p s with
  | .err => .fail
  | x => x

/-- `nom::multi::many0` with fuel.  nom errors the whole repetition when the
body succeeds without consuming input, which the `c.isEmpty` test
reproduces. -/
def pmany0 {α : Type} (p : P α) : Nat → P (List α)
  | 0 => fun _ => .err
  | fuel + 1 => fun s =>
      match p s with
      | .err => .ok [] s []
      | .fail => .fail
      | .ok c r v =>
          if c.isEmpty then .err
          else
            match pmany0 p fuel r with
            | .ok c2 r2 vs => .ok (c ++ c2) r2 (v :: vs)
            | .err => .err
            | .fail => .fail

/-- `nom::multi::many1` with fuel. -/
def pmany1 {α : Type} (p : P α) (fuel : Nat) : P (List α) := fun s =>
  match p s with
  | .err => .err
  | .fail => .fail
  | .ok c r v =>
      if c.isEmpty then .err
      else
        match pmany0 p fuel r with
        | .ok c2 r2 vs => .ok (c ++ c2) r2 (v :: vs)
        | .err => .err
        | .fail => .fail

/-! ### String literals and path/glob validation

`string` in `src/parser.rs` recognizes a JSON-style quoted literal with
nom's `escaped`, then decodes it with `serde_json::from_str::<String>`.
The decoder below follows the JSON string grammar (escape set
`\" \\ \/ \b \f \n \r \t \uXXXX`, surrogate pairing, no raw control
characters).  `relative_path_string` additionally rejects absolute paths:
`RelativePathBuf::from_path` errors on a path with a root or prefix
component; the check is modelled with Windows path semantics (leading
`/` or `\`, or a drive-letter prefix), matching the spec's "no drive
letter, no leading absolute marker" and the repository's own tests.
`glob::Pattern::new` validity is a third-party behavior no claim
depends on; it is approximated by a bracket-balance and triple-star
check. -/

/-- Value of one hex digit. -/
def hexDigitVal (c : Char) : Option Nat :=
  if '0' ≤ c ∧ c ≤ '9' then some (c.toNat - '0'.toNat)
  else if 'a' ≤ c ∧ c ≤ 'f' then some (c.toNat - 'a'.toNat + 10)
  else if 'A' ≤ c ∧ c ≤ 'F' then some (c.toNat - 'A'.toNat + 10)
  else none

/-- JSON string body decoder (fuel-bounded): decodes up to the closing
quote, rejecting malformed escapes, lone surrogates, raw control
characters, and a missing terminator. -/
def jsonUnescape : Nat → List Char → Option (List Char)
  | 0, _ => none
  | _, [] => none
  | _ + 1, ['"'] => some []
  | _, '"' :: _ :: _ => none
  | fuel + 1, '\\' :: e :: rest =>
      if e = '"' ∨ e = '\\' ∨ e = '/' then
        (e :: ·) <$> jsonUnescape fuel rest
      else if e = 'b' then ('\x08' :: ·) <$> jsonUnescape fuel rest
      else if e = 'f' then ('\x0C' :: ·) <$> jsonUnescape fuel rest
      else if e = 'n' then ('\n' :: ·) <$> jsonUnescape fuel rest
      else if e = 'r' then ('\r' :: ·) <$> jsonUnescape fuel rest
      else if e = 't' then ('\t' :: ·) <$> jsonUnescape fuel rest
      else if e = 'u' then
        match rest with
        | h1 :: h2 :: h3 :: h4 :: rest2 =>
            match hexDigitVal h1, hexDigitVal h2, hexDigitVal h3, hexDigitVal h4 with
            | some a, some b, some c, some d =>
                let n := ((a * 16 + b) * 16 + c) * 16 + d
                if 0xD800 ≤ n ∧ n < 0xDC00 then
                  match rest2 with
                  | '\\' :: 'u' :: g1 :: g2 :: g3 :: g4 :: rest3 =>
                      match hexDigitVal g1, hexDigitVal g2, hexDigitVal g3,
                          hexDigitVal g4 with
                      | some a2, some b2, some c2, some d2 =>
                          let m := ((a2 * 16 + b2) * 16 + c2) * 16 + d2
                          if 0xDC00 ≤ m ∧ m < 0xE000 then
                            (Char.ofNat
                                (0x10000 + (n - 0xD800) * 0x400 + (m - 0xDC00))
                              :: ·) <$> jsonUnescape fuel rest3
                          else none
                      | _, _, _, _ => none
                  | _ => none
                else if 0xDC00 ≤ n ∧ n < 0xE000 then none
                else (Char.ofNat n :: ·) <$> jsonUnescape fuel rest2
            | _, _, _, _ => none
        | _ => none
      else none
  | fuel + 1, c :: rest =>
      if c.toNat < 0x20 then none else (c :: ·) <$> jsonUnescape fuel rest

/-- `serde_json::from_str::<String>` on a recognized raw literal (the
leading quote is stripped here; the trailing quote terminates the body). -/
def jsonDecodeString (raw : List Char) : Option (List Char) :=
  match raw with
  | '"' :: rest => jsonUnescape (rest.length + 1) rest
  | _ => none

/-- Absolute-path test modelling `RelativePathBuf::from_path` rejection
(Windows path semantics, see section comment). -/
def isAbsolutePathStr (s : String) : Bool :=
  match s.toList with
  | '/' :: _ => true
  | '\\' :: _ => true
  | a :: ':' :: _ => ('a' ≤ a ∧ a ≤ 'z') ∨ ('A' ≤ a ∧ a ≤ 'Z')
  | _ => false

/-- Bracket-balance scan for the glob validity approximation. -/
def globBracketsOk : List Char → Bool → Bool
  | [], inCls => ¬ inCls
  | '[' :: r, false => globBracketsOk r true
  | ']' :: r, true => globBracketsOk r false
  | _ :: r, b => globBracketsOk r b

/-- Triple-star scan for the glob validity approximation. -/
def hasTripleStar : List Char → Bool
  | '*' :: '*' :: '*' :: _ => true
  | _ :: r => hasTripleStar r
  | [] => false

/-- Approximation of `glob::Pattern::new` validity (no claim depends on
the exact validity set). -/
def globPatternValid (s : String) : Bool :=
  ¬ hasTripleStar s.toList ∧ globBracketsOk s.toList false

/-- `enum Directive` from `src/parser.rs`.  `RelativePathBuf` and
`glob::Pattern` are carried as their string forms. -/
inductive Directive where
  | includeFile (path : String)
  | resource (pattern : String) (dest : String)
  | unknown (name : List Char) (contents : List Char)
deriving DecidableEq, Repr

/-- `enum RtconfigContent` from `src/parser.rs` (spans reduced to their
fragments). -/
inductive RtconfigContent where
  | newline
  | code (t : List Char)
  | expression (t : List Char)
  | comment (t : List Char)
  | directive (d : Directive)
deriving DecidableEq, Repr

/-- nom's `escaped(take_till1(.. == opening quote or backslash), BACKSLASH,
take(1))`, fuel-bounded: alternates plain runs and two-character escape
sequences, stops in front of a quote or at end of input, and errors on a
trailing lone backslash. -/
def pescaped : Nat → P Unit
  | 0 => fun _ => .err
  | fuel + 1 => fun s =>
      match s with
      | [] => .ok [] [] ()
      | c :: tail =>
          if c = '"' then .ok [] s ()
          else if c = '\\' then
            match tail with
            | [] => .err
            | e :: r =>
                match pescaped fuel r with
                | .ok c2 r2 _ => .ok ('\\' :: e :: c2) r2 ()
                | .err => .err
                | .fail => .fail
          else
            match pescaped fuel (s.dropWhile (fun x => !(x == '"' || x == '\\'))) with
            | .ok c2 r2 _ =>
                .ok (s.takeWhile (fun x => !(x == '"' || x == '\\')) ++ c2) r2 ()
            | .err => .err
            | .fail => .fail

/-- `string` from `src/parser.rs`: recognize the quoted literal, then
decode it; a decode failure is `Err::Failure(MalformedString)`.  The value
is `(decoded, raw)`. -/
def jstring (fuel : Nat) : P (List Char × List Char) := fun s =>
  match precog (pseq (pchar '"') (pseq (popt (pescaped fuel)) (pchar '"'))) s with
  | .ok c r raw =>
      match jsonDecodeString raw with
      | some v => .ok c r (v, raw)
      | none => .fail
  | .err => .err
  | .fail => .fail

/-- `relative_path_string`: a string literal that must denote a relative
path; an absolute path is `Err::Failure(NotRelativePath)`. -/
def relative_path_string (fuel : Nat) : P (String × List Char) := fun s =>
  match jstring fuel s with
  | .ok c r (parsed, raw) =>
      if isAbsolutePathStr (String.mk parsed) then .fail
      else .ok c r (String.mk parsed, raw)
  | .err => .err
  | .fail => .fail

/-- `include_directive`: after the `#include` tag, a recoverable error in
the path part becomes `Err::Failure(MalformedIncludeDirective)`. -/
def include_directive (fuel : Nat) : P Directive := fun s =>
  match ptag "#include".toList s with
  | .ok c r _ =>
      match pcommit (pprec pspace1 (relative_path_string fuel)) r with
      | .ok c2 r2 (path, _) => .ok (c ++ c2) r2 (.includeFile path)
      | .err => .err
      | .fail => .fail
  | .err => .err
  | .fail => .fail

/-- `resource_directive`: optional `"dest" :` part, then the pattern
literal; recoverable errors after the tag become
`Err::Failure(MalformedResourceDirective)`; an invalid glob pattern is
`Err::Failure(InvalidGlobPattern)`. -/
def resource_directive (fuel : Nat) : P Directive := fun s =>
  match ptag "#resource".toList s with
  | .ok c r _ =>
      match pcommit (pprec pspace1
          (pseq
            (popt (pterm (relative_path_string fuel)
              (pseq pspace0 (pseq (pchar ':') pspace0))))
            (relative_path_string fuel))) r with
      | .ok c2 r2 (destOpt, (pattern, _raw)) =>
          if globPatternValid pattern then
            .ok (c ++ c2) r2 (.resource pattern
              (match destOpt with
                | some (d, _) => d
                | none => "."))
          else .fail
      | .err => .err
      | .fail => .fail
  | .err => .err
  | .fail => .fail

/-- `unknown_directive`: `#`, a run of letters, then the rest of the
line. -/
def unknown_directive : P Directive := fun s =>
  match pseq (pchar '#') (pseq palpha1 (ptakeTill (· == '\n'))) s with
  | .ok c r (_, name, contents) => .ok c r (.unknown name contents)
  | .err => .err
  | .fail => .fail

/-- `directive = alt((include_directive, resource_directive,
unknown_directive))`. -/
def directiveP (fuel : Nat) : P Directive :=
  palt (include_directive fuel) (palt (resource_directive fuel) unknown_directive)

/-- `brace_pair`: recognize `{ ... }` with arbitrary nesting. -/
def brace_pair : Nat → P (List Char)
  | 0 => fun _ => .err
  | fuel + 1 =>
      precog (pseq (pchar '{')
        (pseq
          (pmany0
            (palt (pmap (ptakeTill1 (fun x => x == '{' || x == '}')) (fun _ => ()))
              (pmap (brace_pair fuel) (fun _ => ())))
            fuel)
          (pchar '}')))

/-- `expression`: `#` followed by a brace pair; the value is the brace
content with the outer braces sliced off. -/
def expressionP (fuel : Nat) : P (List Char) := fun s =>
  match pprec (pchar '#') (brace_pair fuel) s with
  | .ok c r v => .ok c r ((v.drop 1).dropLast)
  | .err => .err
  | .fail => .fail

/-- `allowed_walter_hash_char`: a `#` that does not begin an expression. -/
def allowed_walter_hash_char (fuel : Nat) : P (List Char) := fun s =>
  match ptag ['#'] s with
  | .ok c r _ =>
      match expressionP fuel s with
      | .ok _ _ _ => .err
      | _ => .ok c r ['#']
  | .err => .err
  | .fail => .fail

/-- `walter_code`: at least one run of plain characters or allowed hash
characters. -/
def walter_code (fuel : Nat) : P (List Char) :=
  precog (pmany1
    (palt (pmap (ptakeTill1 (fun x => x == '\n' || x == '#' || x == ';')) (fun _ => ()))
      (pmap (allowed_walter_hash_char fuel) (fun _ => ())))
    fuel)

/-- `comment`: `;` to end of physical line. -/
def commentP : P (List Char) :=
  precog (pseq (pchar ';') (ptakeTill (· == '\n')))

/-- `rtconfig_line_commentless`. -/
def rtconfig_line_commentless (fuel : Nat) : P (List RtconfigContent) :=
  palt
    (pmap (pdelim pspace0 (directiveP fuel) pspace0) (fun d => [.directive d]))
    (pmany1
      (palt (pmap (walter_code fuel) .code) (pmap (expressionP fuel) .expression))
      fuel)

/-- `rtconfig_line`. -/
def rtconfig_line (fuel : Nat) : P (List RtconfigContent) :=
  palt
    (pmap (pseq (rtconfig_line_commentless fuel) (popt commentP))
      (fun x => x.1 ++ (match x.2 with
        | some cmt => [RtconfigContent.comment cmt]
        | none => [])))
    (pmap commentP (fun cmt => [.comment cmt]))

/-- `rtconfig_newline`. -/
def rtconfig_newline : P RtconfigContent :=
  pmap (pchar '\n') (fun _ => .newline)

/-- `rtconfig`: leading newlines, a first line, then newline-separated
lines, then trailing newlines. -/
def rtconfigP (fuel : Nat) : P (List RtconfigContent) :=
  pmap
    (pseq (pmany0 rtconfig_newline fuel)
      (pseq
        (pseq (rtconfig_line fuel)
          (pmany0
            (pmap (pseq (pmany1 rtconfig_newline fuel) (rtconfig_line fuel))
              (fun x => x.1 ++ x.2))
            fuel))
        (pmany0 rtconfig_newline fuel)))
    (fun x => x.1 ++ (x.2.1.1 ++ x.2.1.2.flatten ++ x.2.2))

/-- `parse` from `src/parser.rs` (`all_consuming(rtconfig)(text).finish()`):
`none` models any `ParseError`.  The fuel is the input length plus one,
which the repetition-progress checks keep from running out on any path
nom itself completes. -/
def parse_rtconfig (s : List Char) : Option (List RtconfigContent) :=
  match rtconfigP (s.length + 1) s with
  | .ok _ r items => if r.isEmpty then some items else none
  | _ => none

/-! ## Preprocessing engine (`src/preprocess.rs`)

`ThemeBuilder` holds the build state.  The Lua engine, the filesystem and
glob enumeration are modelled as oracles (`Oracles`); an expression or
script evaluation reports both its result and the `Directive::Resource`
values that `resource()` pushed onto the `NEW_RESOURCE_PATHS` global
queue during the evaluation (the queue itself lives in the builder state
as `pending`).  `panicked` and `fuelExhausted` model process aborts
(`panic!`/`todo!` and unbounded include recursion), not constructors of
the source's `PreprocessError`; error-location payloads are dropped. -/

/-- A `Directive::Resource` staged by the Lua `resource()` builtin. -/
structure Reg where
  pattern : String
  dest : String
deriving DecidableEq, Repr

/-- One element yielded by `glob::glob`: an enumeration error (its path and
message) or a matched path. -/
inductive GlobEntry where
  | errEntry (path : String) (msg : String)
  | okEntry (path : String)
deriving DecidableEq, Repr

/-- The value space of the embedded Lua engine as matched by
`serialise_expression` (`mlua::Value`).  A float (`Number`) carries its
already-rendered decimal text, abstracting `f64` formatting, which no
claim inspects. -/
inductive LuaValue where
  | nil
  | boolean (b : Bool)
  | integer (n : Int)
  | number (text : String)
  | str (s : List Char)
  | table
  | function
  | thread
  | userdataRGB (c : RGB)
  | userdataRGBA (c : RGBA)
  | userdataOther
  | lightuserdata
  | luaError
  | other
deriving DecidableEq, Repr

/-- Result of `serialise_expression`: the serialized text, an
`mlua::Error` (returned as a structured value), or a Rust panic
(`todo!`), which aborts the process instead of returning. -/
inductive SRes where
  | ok (text : List Char)
  | luaErr (msg : String)
  | panicked (msg : String)
deriving DecidableEq, Repr

/-- Merged configuration (`ini::Ini`): ordered sections (the general
section has key `none`) of ordered key/value properties. -/
abbrev IniData : Type := List (Option String × List (String × String))

/-- External services consumed by the preprocessing engine. -/
structure Oracles where
  /-- `lua.load(expr).eval()`: resource registrations made during the
  evaluation, and the resulting value or runtime error. -/
  eval : List Char → List Reg × Except String LuaValue
  /-- `lua.load(script).exec()` keyed by script text. -/
  exec : String → List Reg × Except String Unit
  /-- `glob::glob(absolute_pattern)` enumeration. -/
  globMatches : String → List GlobEntry
  /-- `fs::read_to_string`. -/
  fs : String → Option String
  /-- `Ini::load_from_file`. -/
  iniFs : String → Option IniData

/-- Errors of the preprocessing engine (see section comment). -/
inductive PreprocessError where
  | readError (path : String)
  | rtconfigParseError (path : String)
  | reaperThemeParseError (path : String)
  | iniError (path : String)
  | readScriptError (path : String)
  | evaluateError (path : String) (msg : String)
  | panicked (msg : String)
  | fuelExhausted
deriving DecidableEq, Repr

/-- Build state (`struct ThemeBuilder` plus the process-global
`NEW_RESOURCE_PATHS` queue and the `log::warn` stream). -/
structure ThemeBuilder where
  parts : List (List Char)
  config : IniData
  resources : List (String × String)
  skip_next_newline : Bool
  pending : List Reg
  warnings : List String
deriving Repr

/-- `ThemeBuilder::new` (with an empty resource queue and warning log). -/
def ThemeBuilder.new : ThemeBuilder := ⟨[], [], [], false, [], []⟩

/-- `ThemeBuilder::rtconfig`: `self.parts.join("")`. -/
def ThemeBuilder.rtconfig (b : ThemeBuilder) : List Char := b.parts.flatten

/-- First-match lookup in the resource manifest (`HashMap` modelled as an
association list with unique keys). -/
def lookupRes (rs : List (String × String)) (k : String) : Option String :=
  match rs with
  | [] => none
  | (k2, v) :: rest => if k2 = k then some v else lookupRes rest k

/-- `Path::parent().unwrap()`: the text before the final separator. -/
def parentDir (p : String) : String :=
  String.mk
    (((p.toList.reverse.dropWhile (fun c => ¬(c = '/' ∨ c = '\\'))).drop 1).reverse)

/-- `Path::join` with a relative right operand. -/
def pathJoin (dir rel : String) : String := dir ++ "/" ++ rel

/-- `RelativePath::join` at the string level. -/
def relJoin (dest name : String) : String :=
  if dest = "" then name else dest ++ "/" ++ name

/-- `Path::file_name()`: the final component; `none` for an empty or
dot/dot-dot terminated path. -/
def fileName (p : String) : Option String :=
  let last := String.mk ((p.toList.reverse.takeWhile
    (fun c => ¬(c = '/' ∨ c = '\\'))).reverse)
  if last = "" ∨ last = "." ∨ last = ".." then none else some last

/-- `RelativePath::extension()`: the part of the final component after its
last `.`, provided that dot is not the component's leading character. -/
def extOf (p : String) : Option String :=
  let revLast := p.toList.reverse.takeWhile (fun c => ¬(c = '/' ∨ c = '\\'))
  if revLast.contains '.' then
    let revExt := revLast.takeWhile (· ≠ '.')
    let beforeDot := (revLast.dropWhile (· ≠ '.')).drop 1
    if beforeDot.isEmpty then none else some (String.mk revExt.reverse)
  else none

/-- `u8::to_ascii_lowercase` lifted to characters. -/
def asciiLowerChar (c : Char) : Char :=
  if 'A' ≤ c ∧ c ≤ 'Z' then Char.ofNat (c.toNat + 32) else c

/-- `str::to_ascii_lowercase`. -/
def asciiLowerStr (s : String) : String :=
  String.mk (s.toList.map asciiLowerChar)

/-- `enum IncludeType`. -/
inductive IncludeType where
  | rtConfig
  | reaperTheme
  | lua
deriving DecidableEq, Repr

/-- `ThemeBuilder::determine_include_type` (extension lowercased). -/
def determine_include_type (p : String) : IncludeType :=
  match extOf p with
  | some ext =>
      if asciiLowerStr ext = "reapertheme" ∨ asciiLowerStr ext = "ini" then
        .reaperTheme
      else if asciiLowerStr ext = "lua" then .lua
      else .rtConfig
  | none => .rtConfig

/-- `indent::indent_by`: every line except the first is prefixed with `n`
spaces (empty-line treatment of the crate approximated; no claim
inspects it). -/
def indentBy (n : Nat) : List Char → List Char
  | [] => []
  | '\n' :: rest => '\n' :: (List.replicate n ' ' ++ indentBy n rest)
  | c :: rest => c :: indentBy n rest

/-- `ThemeBuilder::serialise_expression(expr, is_rtconfig)`.  `frag` and
`col` are the expression span's fragment and 1-based UTF-8 column.  Note
the source never reads `is_rtconfig`: a `ColorValue` result is rendered
as `value_rev()` decimal text on both paths, and unsupported kinds hit
`todo!`, i.e. panic. -/
def serialise_expression (O : Oracles) (frag : List Char) (col : Nat)
    (is_rtconfig : Bool) : List Reg × SRes :=
  match O.eval frag with
  | (regs, .error e) => (regs, .luaErr e)
  | (regs, .ok v) =>
      (regs,
        match v with
        | .nil => .ok []
        | .boolean true => .ok "true".toList
        | .boolean false => .ok "false".toList
        | .integer n => .ok (toString n).toList
        | .number t => .ok t.toList
        | .str x => .ok (indentBy (col - 3) x)
        | .table => .panicked "not yet implemented: Table"
        | .function => .panicked "not yet implemented: Function"
        | .thread => .panicked "not yet implemented: Thread"
        | .userdataRGB c => .ok (toString c.value_rev).toList
        | .userdataRGBA c => .ok (toString c.value_rev).toList
        | .userdataOther => .panicked "not yet implemented: UserData"
        | .lightuserdata => .panicked "not yet implemented: LightUserData"
        | .other => .panicked "not yet implemented: Other"
        | .luaError => .panicked "not yet implemented: Error")

/-- Body of the `for path in resources` loop of
`feed_directive_resource`: warn and skip enumeration errors and nameless
matches; drop (with a warning) a match whose destination already exists;
otherwise insert. -/
def resourceStep (dest : String) (b : ThemeBuilder) (e : GlobEntry) :
    ThemeBuilder :=
  match e with
  | .errEntry p msg =>
      { b with warnings :=
          b.warnings ++ [s!"failed to get resources in path `{p}`: {msg}"] }
  | .okEntry p =>
      match fileName p with
      | none =>
          { b with warnings :=
              b.warnings ++ [s!"resource does not have a filename `{p}`"] }
      | some n =>
          let destFile := relJoin dest n
          if (lookupRes b.resources destFile).isSome then
            { b with warnings := b.warnings ++
                [s!"resource `{p}` overwrites previous resource at `{destFile}`"] }
          else { b with resources := b.resources ++ [(destFile, p)] }

/-- `ThemeBuilder::feed_directive_resource`: glob relative to the source
file's directory, then fold the matches. -/
def feed_directive_resource (O : Oracles) (b : ThemeBuilder)
    (pattern : String) (dest : String) (source_path : String) : ThemeBuilder :=
  let source_dir := parentDir source_path
  let absolute_pattern := pathJoin source_dir pattern
  (O.globMatches absolute_pattern).foldl (resourceStep dest) b

/-- The drain of `NEW_RESOURCE_PATHS` performed in the `Expression` arm of
`ThemeBuilder::feed`: every queued directive is resolved exactly like a
`#resource` directive against the current file, then the queue is
cleared. -/
def drainPendingResources (O : Oracles) (b : ThemeBuilder)
    (source_path : String) : ThemeBuilder :=
  { b.pending.foldl
      (fun x r => feed_directive_resource O x r.pattern r.dest source_path) b
    with pending := [] }

/-- `ThemeBuilder::run_script`: read the file, execute it in the shared
engine (global effects abstracted; `resource()` registrations reported by
the oracle land in the queue, which this function does not drain). -/
def run_script (O : Oracles) (b : ThemeBuilder) (path : String) :
    Except PreprocessError ThemeBuilder :=
  match O.fs path with
  | none => .error (.readScriptError path)
  | some script =>
      match O.exec script with
      | (regs, .ok _) => .ok { b with pending := b.pending ++ regs }
      | (regs, .error e) => .error (.evaluateError path e)

/-- Modelled from the spec: `ReaperThemeContent`, the output of the
Config-Value Parser (`parse_reapertheme` is referenced from
`src/preprocess.rs` but its definition is not under `src/`).  A value is
a sequence of plain text and expression spans (fragment plus 1-based
UTF-8 column within the value). -/
inductive ReaperThemeContent where
  | text (t : List Char)
  | expression (t : List Char) (col : Nat)
deriving DecidableEq, Repr

/-- Column after consuming `cs` starting at 1-based column `col`. -/
def colAfter (cs : List Char) (col : Nat) : Nat :=
  cs.foldl (fun c x => if x = '\n' then 1 else c + 1) col

/-- Modelled from the spec: the Config-Value Parser "reuses the
expression-span grammar to re-scan imported configuration values for
embedded expressions" (no directive support).  A `#` that does not open
an expression is ordinary text, matching the descriptor grammar's hash
handling; text is produced character-wise, which splices identically. -/
def scanValue : Nat → List Char → Nat → List ReaperThemeContent
  | 0, _, _ => []
  | _, [], _ => []
  | fuel + 1, c :: rest, col =>
      match expressionP (rest.length + 2) (c :: rest) with
      | .ok consumed r v =>
          .expression v (col + 2) :: scanValue fuel r (colAfter consumed col)
      | _ => .text [c] :: scanValue fuel rest (colAfter [c] col)

/-- Modelled from the spec: `parse_reapertheme` applied to one imported
configuration value. -/
def parse_reapertheme (s : List Char) : List ReaperThemeContent :=
  scanValue (s.length + 1) s 1

/-- Splice one configuration value: concatenate text chunks and serialized
expression results (`is_rtconfig = false`), short-circuiting on the first
evaluation error or panic; registrations accumulate in order. -/
def spliceValueGo (O : Oracles) (acc : List Char) (regs : List Reg) :
    List ReaperThemeContent → List Reg × SRes
  | [] => (regs, .ok acc)
  | .text t :: rest => spliceValueGo O (acc ++ t) regs rest
  | .expression t col :: rest =>
      match serialise_expression O t col false with
      | (r2, .ok out) => spliceValueGo O (acc ++ out) (regs ++ r2) rest
      | (r2, .luaErr e) => (regs ++ r2, .luaErr e)
      | (r2, .panicked m) => (regs ++ r2, .panicked m)

/-- `Properties::set` semantics of the `ini` crate: overwrite in place or
append. -/
def setProps (props : List (String × String)) (key val : String) :
    List (String × String) :=
  match props with
  | [] => [(key, val)]
  | (k, v) :: rest =>
      if k = key then (k, val) :: rest else (k, v) :: setProps rest key val

/-- `config.with_section(section).set(key, value)`. -/
def setIniKey (cfg : IniData) (sec : Option String) (key val : String) :
    IniData :=
  match cfg with
  | [] => [(sec, [(key, val)])]
  | (s2, props) :: rest =>
      if s2 = sec then (s2, setProps props key val) :: rest
      else (s2, props) :: setIniKey rest sec key val

/-- Inner loop of `ThemeBuilder::import_config` over one section's
properties.  Note: no drain of the pending-resource queue happens here;
registrations made by expressions inside configuration values stay
queued. -/
def importProps (O : Oracles) (b : ThemeBuilder) (path : String)
    (sec : Option String) :
    List (String × String) → Except PreprocessError ThemeBuilder
  | [] => .ok b
  | (key, val) :: rest =>
      match spliceValueGo O [] [] (parse_reapertheme val.toList) with
      | (regs, .ok out) =>
          importProps O
            { b with pending := b.pending ++ regs,
                     config := setIniKey b.config sec key (String.mk out) }
            path sec rest
      | (regs, .luaErr e) => .error (.evaluateError path e)
      | (regs, .panicked m) => .error (.panicked m)

/-- Outer loop of `ThemeBuilder::import_config` over the sections. -/
def importSections (O : Oracles) (b : ThemeBuilder) (path : String) :
    IniData → Except PreprocessError ThemeBuilder
  | [] => .ok b
  | (sec, props) :: rest =>
      match importProps O b path sec props with
      | .ok b2 => importSections O b2 path rest
      | .error e => .error e

/-- `ThemeBuilder::import_config` (source name `import_config`): load the
ini file and merge each value after splicing its embedded expressions. -/
def importConfig (O : Oracles) (b : ThemeBuilder) (path : String) :
    Except PreprocessError ThemeBuilder :=
  match O.iniFs path with
  | none => .error (.iniError path)
  | some ini => importSections O b path ini

/-- `ThemeBuilder::feed_directive_include`: dispatch on the include
type.  Feeding a descriptor (`RtConfig`) include is a `panic!` in the
source — `_preprocess` routes those before feeding. -/
def feed_directive_include (O : Oracles) (b : ThemeBuilder)
    (include_relpath : String) (source_path : String) :
    Except PreprocessError ThemeBuilder :=
  let include_path := pathJoin (parentDir source_path) include_relpath
  match determine_include_type include_relpath with
  | .rtConfig => .error (.panicked "#include rtconfig should not be fed into builder")
  | .reaperTheme => importConfig O b include_path
  | .lua => run_script O b include_path

/-- A content item as fed to the builder: `RtconfigContent` with the
expression span's source column attached (the span data `ThemeBuilder::feed`
reads). -/
inductive FedContent where
  | newline
  | code (t : List Char)
  | comment (t : List Char)
  | expression (frag : List Char) (col : Nat)
  | directive (d : Directive)
deriving DecidableEq, Repr

/-- `ThemeBuilder::feed`. -/
def feed (O : Oracles) (b : ThemeBuilder) (content : FedContent)
    (source_path : String) : Except PreprocessError ThemeBuilder :=
  match content with
  | .newline =>
      if b.skip_next_newline then .ok { b with skip_next_newline := false }
      else .ok { b with parts := b.parts ++ [['\n']] }
  | .code t => .ok { b with parts := b.parts ++ [t] }
  | .comment t => .ok { b with parts := b.parts ++ [t] }
  | .expression frag col =>
      match serialise_expression O frag col true with
      | (regs, .ok out) =>
          .ok (drainPendingResources O
            { b with pending := b.pending ++ regs,
                     parts := b.parts ++ [out] } source_path)
      | (regs, .luaErr e) => .error (.evaluateError source_path e)
      | (regs, .panicked m) => .error (.panicked m)
  | .directive d =>
      match d with
      | .includeFile p =>
          feed_directive_include O { b with skip_next_newline := true } p
            source_path
      | .resource pattern dest =>
          .ok (feed_directive_resource O { b with skip_next_newline := true }
            pattern dest source_path)
      | .unknown name contents =>
          .ok { b with skip_next_newline := true, parts :=
            b.parts ++ [';' :: ' ' :: '#' :: (name ++ contents ++ ['\n'])] }

/-- Rendering of one parsed content item back to source text (expressions
re-wrapped in their original `#` and braces); directives render to
nothing, and the round-trip claims exclude them. -/
def renderContent : RtconfigContent → List Char
  | .newline => ['\n']
  | .code t => t
  | .comment t => t
  | .expression t => '#' :: '{' :: (t ++ ['}'])
  | .directive _ => []

/-- Concatenation of rendered items. -/
def renderContents (xs : List RtconfigContent) : List Char :=
  (xs.map renderContent).flatten

/-- Attach source columns to parsed items (recovering what the
`LocatedSpan`s of the source carry; after a directive the tracked column
is approximate until the next newline, and no expression can occur there
because a directive line holds no expressions). -/
def annotateContents (col : Nat) : List RtconfigContent → List FedContent
  | [] => []
  | .newline :: rest => .newline :: annotateContents 1 rest
  | .code t :: rest => .code t :: annotateContents (colAfter t col) rest
  | .comment t :: rest => .comment t :: annotateContents (colAfter t col) rest
  | .expression t :: rest =>
      .expression t (col + 2) ::
        annotateContents (colAfter (renderContent (.expression t)) col) rest
  | .directive d :: rest => .directive d :: annotateContents col rest

/-- The per-file loop of `_preprocess`: a `#include` whose target is a
descriptor file is recursively read, parsed and processed (never fed to
the builder — in particular it does not set `skip_next_newline`); every
other item is fed.  `fuel` bounds the include recursion depth, modelling
the source's unbounded recursion, which no claim exercises past the
provided fuel. -/
def processContents (O : Oracles) :
    Nat → ThemeBuilder → String → List FedContent →
    Except PreprocessError ThemeBuilder
  | 0, _, _, _ => .error .fuelExhausted
  | _ + 1, b, _, [] => .ok b
  | fuel + 1, b, path, .directive (.includeFile p) :: rest =>
      match determine_include_type p with
      | .rtConfig =>
          match O.fs (pathJoin (parentDir path) p) with
          | none => .error (.readError (pathJoin (parentDir path) p))
          | some text =>
              match parse_rtconfig text.toList with
              | none => .error (.rtconfigParseError (pathJoin (parentDir path) p))
              | some items =>
                  match processContents O fuel b (pathJoin (parentDir path) p)
                      (annotateContents 1 items) with
                  | .ok b2 => processContents O fuel b2 path rest
                  | .error e => .error e
      | _ =>
          match feed O b (.directive (.includeFile p)) path with
          | .ok b2 => processContents O fuel b2 path rest
          | .error e => .error e
  | fuel + 1, b, path, x :: rest =>
      match feed O b x path with
      | .ok b2 => processContents O fuel b2 path rest
      | .error e => .error e

/-- `_preprocess`: read and parse a descriptor file, then process its
items. -/
def _preprocess (O : Oracles) (fuel : Nat) (b : ThemeBuilder)
    (path : String) : Except PreprocessError ThemeBuilder :=
  match O.fs path with
  | none => .error (.readError path)
  | some text =>
      match parse_rtconfig text.toList with
      | none => .error (.rtconfigParseError path)
      | some items => processContents O fuel b path (annotateContents 1 items)

/-- `preprocess`: run a build from a fresh builder and return the expanded
text, the merged configuration and the resource manifest (the Lua-global
seeding only touches the oracle-abstracted engine). -/
def preprocess (O : Oracles) (fuel : Nat) (path : String) :
    Except PreprocessError (List Char × IniData × List (String × String)) :=
  match _preprocess O fuel ThemeBuilder.new path with
  | .ok b => .ok (b.rtconfig, b.config, b.resources)
  | .error e => .error e

/-! ## Round-trip machinery

`Splits p` states that a success of `p` consumed exactly the prefix it
reports.  The inversion lemmas decompose successes of the combinators;
together they drive the proof that concatenating the parsed items
reproduces the input. -/

/-- A parser whose successes split the input into consumed ++ rest. -/
def Splits {α : Type} (p : P α) : Prop :=
  ∀ s c r v, p s = .ok c r v → c ++ r = s

theorem pchar_ok {c0 : Char} {s c r : List Char} {v : Unit}
    (h : pchar c0 s = .ok c r v) : c = [c0] ∧ s = c0 :: r := by
  unfold pchar at h
  match s with
  | [] => exact absurd h (by simp)
  | x :: t =>
      by_cases hx : x = c0
      · subst hx
        simp only [if_pos rfl] at h
        cases h
        exact ⟨rfl, rfl⟩
      · simp [hx] at h

theorem ptag_ok {t s c r : List Char} {v : Unit}
    (h : ptag t s = .ok c r v) : c = t ∧ s = t ++ r := by
  unfold ptag at h
  by_cases hp : t.isPrefixOf s
  · simp only [hp, if_pos rfl] at h
    cases h
    obtain ⟨u, hu⟩ := (List.isPrefixOf_iff_prefix.mp hp)
    subst hu
    exact ⟨rfl, by simp⟩
  · simp [hp] at h

theorem ptakeTill_ok {f : Char → Bool} {s c r : List Char} {v : List Char}
    (h : ptakeTill f s = .ok c r v) : v = c ∧ c ++ r = s := by
  unfold ptakeTill at h
  cases h
  exact ⟨rfl, List.takeWhile_append_dropWhile ..⟩

theorem ptakeTill1_ok {f : Char → Bool} {s c r : List Char} {v : List Char}
    (h : ptakeTill1 f s = .ok c r v) : v = c ∧ c ++ r = s := by
  unfold ptakeTill1 at h
  split at h
  · cases h
  · cases h
    exact ⟨rfl, List.takeWhile_append_dropWhile ..⟩

theorem ptake1_ok {s c r v : List Char}
    (h : ptake1 s = .ok c r v) : v = c ∧ c ++ r = s := by
  unfold ptake1 at h
  match s with
  | [] => exact absurd h (by simp)
  | x :: t =>
      cases h
      exact ⟨rfl, rfl⟩

theorem pspace0_ok {s c r : List Char} {v : Unit}
    (h : pspace0 s = .ok c r v) : c ++ r = s := by
  unfold pspace0 at h
  cases h
  exact List.takeWhile_append_dropWhile ..

theorem pspace1_ok {s c r : List Char} {v : Unit}
    (h : pspace1 s = .ok c r v) : c ++ r = s := by
  unfold pspace1 at h
  split at h
  · cases h
  · cases h
    exact List.takeWhile_append_dropWhile ..

theorem palpha1_ok {s c r : List Char} {v : List Char}
    (h : palpha1 s = .ok c r v) : v = c ∧ c ++ r = s := by
  unfold palpha1 at h
  split at h
  · cases h
  · cases h
    exact ⟨rfl, List.takeWhile_append_dropWhile ..⟩

theorem pmap_ok {α β : Type} {p : P α} {f : α → β} {s c r : List Char} {w : β}
    (h : pmap p f s = .ok c r w) : ∃ v, p s = .ok c r v ∧ w = f v := by
  unfold pmap at h
  split at h
  next c1 r1 v1 hp =>
    cases h
    exact ⟨v1, hp, rfl⟩
  next => cases h
  next => cases h

theorem pseq_ok {α β : Type} {p : P α} {q : P β} {s c r : List Char}
    {vw : α × β} (h : pseq p q s = .ok c r vw) :
    ∃ c1 r1 c2, p s = .ok c1 r1 vw.1 ∧ q r1 = .ok c2 r vw.2 ∧ c = c1 ++ c2 := by
  unfold pseq at h
  split at h
  next c1 r1 v1 hp =>
    split at h
    next c2 r2 w1 hq =>
      cases h
      exact ⟨c1, r1, c2, hp, hq, rfl⟩
    next => cases h
    next => cases h
  next => cases h
  next => cases h

theorem palt_ok {α : Type} {p q : P α} {s c r : List Char} {v : α}
    (h : palt p q s = .ok c r v) :
    p s = .ok c r v ∨ (p s = .err ∧ q s = .ok c r v) := by
  unfold palt at h
  split at h
  next hp => exact .inr ⟨hp, h⟩
  next x hp => exact .inl h

theorem popt_ok {α : Type} {p : P α} {s c r : List Char} {w : Option α}
    (h : popt p s = .ok c r w) :
    (∃ v, w = some v ∧ p s = .ok c r v) ∨ (w = none ∧ c = [] ∧ r = s) := by
  unfold popt at h
  split at h
  next c1 r1 v1 hp =>
    cases h
    exact .inl ⟨v1, rfl, hp⟩
  next hp =>
    cases h
    exact .inr ⟨rfl, rfl, rfl⟩
  next => cases h

theorem precog_ok {α : Type} {p : P α} {s c r w : List Char}
    (h : precog p s = .ok c r w) : w = c ∧ ∃ v, p s = .ok c r v := by
  unfold precog at h
  split at h
  next c1 r1 v1 hp =>
    cases h
    exact ⟨rfl, v1, hp⟩
  next => cases h
  next => cases h

theorem pcommit_ok {α : Type} {p : P α} {s c r : List Char} {v : α}
    (h : pcommit p s = .ok c r v) : p s = .ok c r v := by
  unfold pcommit at h
  split at h
  next hp => cases h
  next x hp => exact h

theorem pprec_ok {α β : Type} {p : P α} {q : P β} {s c r : List Char} {w : β}
    (h : pprec p q s = .ok c r w) :
    ∃ c1 r1 c2 v, p s = .ok c1 r1 v ∧ q r1 = .ok c2 r w ∧ c = c1 ++ c2 := by
  obtain ⟨vw, hvw, hw⟩ := pmap_ok h
  obtain ⟨c1, r1, c2, hp, hq, hc⟩ := pseq_ok hvw
  exact ⟨c1, r1, c2, vw.1, hp, hw ▸ hq, hc⟩

theorem pterm_ok {α β : Type} {p : P α} {q : P β} {s c r : List Char} {v : α}
    (h : pterm p q s = .ok c r v) :
    ∃ c1 r1 c2 w, p s = .ok c1 r1 v ∧ q r1 = .ok c2 r w ∧ c = c1 ++ c2 := by
  obtain ⟨vw, hvw, hv⟩ := pmap_ok h
  obtain ⟨c1, r1, c2, hp, hq, hc⟩ := pseq_ok hvw
  exact ⟨c1, r1, c2, vw.2, hv ▸ hp, hq, hc⟩

theorem pdelim_ok {α β γ : Type} {l : P α} {p : P β} {q : P γ}
    {s c r : List Char} {v : β} (h : pdelim l p q s = .ok c r v) :
    ∃ c1 r1 c2 r2 c3 vl vq, l s = .ok c1 r1 vl ∧ p r1 = .ok c2 r2 v ∧
      q r2 = .ok c3 r vq ∧ c = c1 ++ c2 ++ c3 := by
  obtain ⟨vw, hvw, hv⟩ := pmap_ok h
  obtain ⟨c1, r1, c23, hl, hpq, hc⟩ := pseq_ok hvw
  obtain ⟨c2, r2, c3, hp, hq, hc23⟩ := pseq_ok hpq
  exact ⟨c1, r1, c2, r2, c3, vw.1, vw.2.2, hl, hv ▸ hp, hq, by
    simp [hc, hc23]⟩

theorem splits_pchar (c0 : Char) : Splits (pchar c0) := by
  intro s c r v h
  obtain ⟨hc, hs⟩ := pchar_ok h
  subst hc
  subst hs
  rfl

theorem splits_ptag (t : List Char) : Splits (ptag t) := by
  intro s c r v h
  obtain ⟨hc, hs⟩ := ptag_ok h
  subst hc
  subst hs
  rfl

theorem splits_ptakeTill (f : Char → Bool) : Splits (ptakeTill f) := by
  intro s c r v h
  exact (ptakeTill_ok h).2

theorem splits_ptakeTill1 (f : Char → Bool) : Splits (ptakeTill1 f) := by
  intro s c r v h
  exact (ptakeTill1_ok h).2

theorem splits_ptake1 : Splits ptake1 := by
  intro s c r v h
  exact (ptake1_ok h).2

theorem splits_pspace0 : Splits pspace0 := by
  intro s c r v h
  exact pspace0_ok h

theorem splits_pspace1 : Splits pspace1 := by
  intro s c r v h
  exact pspace1_ok h

theorem splits_palpha1 : Splits palpha1 := by
  intro s c r v h
  exact (palpha1_ok h).2

theorem splits_pmap {α β : Type} {p : P α} {f : α → β} (hp : Splits p) :
    Splits (pmap p f) := by
  intro s c r v h
  obtain ⟨w, hw, _⟩ := pmap_ok h
  exact hp s c r w hw

theorem splits_pseq {α β : Type} {p : P α} {q : P β} (hp : Splits p)
    (hq : Splits q) : Splits (pseq p q) := by
  intro s c r v h
  obtain ⟨c1, r1, c2, h1, h2, hc⟩ := pseq_ok h
  subst hc
  rw [List.append_assoc, hq r1 c2 r v.2 h2, hp s c1 r1 v.1 h1]

theorem splits_palt {α : Type} {p q : P α} (hp : Splits p) (hq : Splits q) :
    Splits (palt p q) := by
  intro s c r v h
  rcases palt_ok h with h1 | ⟨_, h1⟩
  · exact hp s c r v h1
  · exact hq s c r v h1

theorem splits_popt {α : Type} {p : P α} (hp : Splits p) : Splits (popt p) := by
  intro s c r v h
  rcases popt_ok h with ⟨w, _, h1⟩ | ⟨_, hc, hr⟩
  · exact hp s c r w h1
  · subst hc
    subst hr
    rfl

theorem splits_precog {α : Type} {p : P α} (hp : Splits p) :
    Splits (precog p) := by
  intro s c r v h
  obtain ⟨_, w, h1⟩ := precog_ok h
  exact hp s c r w h1

theorem splits_pcommit {α : Type} {p : P α} (hp : Splits p) :
    Splits (pcommit p) := by
  intro s c r v h
  exact hp s c r v (pcommit_ok h)

theorem splits_pprec {α β : Type} {p : P α} {q : P β} (hp : Splits p)
    (hq : Splits q) : Splits (pprec p q) :=
  splits_pmap (splits_pseq hp hq)

theorem splits_pterm {α β : Type} {p : P α} {q : P β} (hp : Splits p)
    (hq : Splits q) : Splits (pterm p q) :=
  splits_pmap (splits_pseq hp hq)

theorem splits_pdelim {α β γ : Type} {l : P α} {p : P β} {q : P γ}
    (hl : Splits l) (hp : Splits p) (hq : Splits q) : Splits (pdelim l p q) :=
  splits_pmap (splits_pseq hl (splits_pseq hp hq))

theorem splits_pmany0 {α : Type} {p : P α} (hp : Splits p) :
    ∀ fuel, Splits (pmany0 p fuel) := by
  intro fuel
  induction fuel with
  | zero =>
      intro s c r v h
      simp [pmany0] at h
  | succ f ih =>
      intro s c r v h
      unfold pmany0 at h
      split at h
      next => cases h; rfl
      next => cases h
      next c1 r1 v1 h1 =>
        split at h
        next => cases h
        next =>
          split at h
          next c2 r2 vs h2 =>
            cases h
            rw [List.append_assoc, ih r1 c2 r vs h2, hp s c1 r1 v1 h1]
          next => cases h
          next => cases h

theorem splits_pmany1 {α : Type} {p : P α} (hp : Splits p) (fuel : Nat) :
    Splits (pmany1 p fuel) := by
  intro s c r v h
  unfold pmany1 at h
  split at h
  next => cases h
  next => cases h
  next c1 r1 v1 h1 =>
    split at h
    next => cases h
    next =>
      split at h
      next c2 r2 vs h2 =>
        cases h
        rw [List.append_assoc, splits_pmany0 hp fuel r1 c2 r vs h2,
          hp s c1 r1 v1 h1]
      next => cases h
      next => cases h

theorem splits_pescaped : ∀ fuel, Splits (pescaped fuel) := by
  intro fuel
  induction fuel with
  | zero =>
      intro s c r v h
      simp [pescaped] at h
  | succ f ih =>
      intro s c r v h
      unfold pescaped at h
      split at h
      next =>
        cases h
        rfl
      next x tail =>
        split at h
        next hx =>
          cases h
          rfl
        next hx =>
          split at h
          next hb =>
            subst hb
            split at h
            next => cases h
            next e rest =>
              split at h
              next c2 r2 vu h2 =>
                cases h
                have := ih rest c2 r vu h2
                simp [this]
              next => cases h
              next => cases h
          next hb =>
            split at h
            next c2 r2 vu h2 =>
              cases h
              rw [List.append_assoc, ih _ c2 r vu h2]
              exact List.takeWhile_append_dropWhile ..
            next => cases h
            next => cases h

theorem splits_jstring (fuel : Nat) : Splits (jstring fuel) := by
  intro s c r v h
  unfold jstring at h
  split at h
  next c1 r1 raw h1 =>
    split at h
    next =>
      cases h
      exact splits_precog
        (splits_pseq (splits_pchar _)
          (splits_pseq (splits_popt (splits_pescaped fuel)) (splits_pchar _)))
        s c r raw h1
    next => cases h
  next => cases h
  next => cases h

theorem splits_relative_path_string (fuel : Nat) :
    Splits (relative_path_string fuel) := by
  intro s c r v h
  unfold relative_path_string at h
  split at h
  next c1 r1 parsed raw h1 =>
    split at h
    next => cases h
    next =>
      cases h
      exact splits_jstring fuel s c r (parsed, raw) h1
  next => cases h
  next => cases h

theorem splits_include_directive (fuel : Nat) :
    Splits (include_directive fuel) := by
  intro s c r v h
  unfold include_directive at h
  split at h
  next c1 r1 vu h1 =>
    split at h
    next c2 r2 path raw h2 =>
      cases h
      rw [List.append_assoc,
        splits_pcommit (splits_pprec splits_pspace1
          (splits_relative_path_string fuel)) r1 c2 r (path, raw) h2,
        (ptag_ok h1).2, (ptag_ok h1).1]
    next => cases h
    next => cases h
  next => cases h
  next => cases h

theorem splits_resource_directive (fuel : Nat) :
    Splits (resource_directive fuel) := by
  intro s c r v h
  unfold resource_directive at h
  split at h
  next c1 r1 vu h1 =>
    split at h
    next c2 r2 destOpt pattern raw h2 =>
      split at h
      next =>
        cases h
        rw [List.append_assoc,
          splits_pcommit (splits_pprec splits_pspace1
            (splits_pseq
              (splits_popt (splits_pterm (splits_relative_path_string fuel)
                (splits_pseq splits_pspace0
                  (splits_pseq (splits_pchar _) splits_pspace0))))
              (splits_relative_path_string fuel))) r1 c2 r
            (destOpt, (pattern, raw)) h2,
          (ptag_ok h1).2, (ptag_ok h1).1]
      next => cases h
    next => cases h
    next => cases h
  next => cases h
  next => cases h

theorem splits_unknown_directive : Splits unknown_directive := by
  intro s c r v h
  unfold unknown_directive at h
  split at h
  next c1 r1 u name contents h1 =>
    cases h
    exact splits_pseq (splits_pchar _)
      (splits_pseq splits_palpha1 (splits_ptakeTill _)) s c r
      (u, name, contents) h1
  next => cases h
  next => cases h

theorem splits_directiveP (fuel : Nat) : Splits (directiveP fuel) :=
  splits_palt (splits_include_directive fuel)
    (splits_palt (splits_resource_directive fuel) splits_unknown_directive)

theorem splits_brace_pair : ∀ fuel, Splits (brace_pair fuel) := by
  intro fuel
  induction fuel with
  | zero =>
      intro s c r v h
      simp [brace_pair] at h
  | succ f ih =>
      intro s c r v h
      unfold brace_pair at h
      exact splits_precog
        (splits_pseq (splits_pchar _)
          (splits_pseq
            (splits_pmany0
              (splits_palt (splits_pmap (splits_ptakeTill1 _))
                (splits_pmap ih)) f)
            (splits_pchar _))) s c r v h

theorem splits_expressionP (fuel : Nat) : Splits (expressionP fuel) := by
  intro s c r v h
  unfold expressionP at h
  split at h
  next c1 r1 pr h1 =>
    cases h
    exact splits_pprec (splits_pchar _) (splits_brace_pair fuel) s c r pr h1
  next => cases h
  next => cases h

theorem splits_allowed_walter_hash_char (fuel : Nat) :
    Splits (allowed_walter_hash_char fuel) := by
  intro s c r v h
  unfold allowed_walter_hash_char at h
  split at h
  next c1 r1 vu h1 =>
    split at h
    next => cases h
    next =>
      cases h
      exact splits_ptag _ s c r vu h1
  next => cases h
  next => cases h

theorem splits_walter_code (fuel : Nat) : Splits (walter_code fuel) :=
  splits_precog (splits_pmany1
    (splits_palt (splits_pmap (splits_ptakeTill1 _))
      (splits_pmap (splits_allowed_walter_hash_char fuel))) fuel)

theorem splits_commentP : Splits commentP :=
  splits_precog (splits_pseq (splits_pchar _) (splits_ptakeTill _))

theorem splits_rtconfig_line_commentless (fuel : Nat) :
    Splits (rtconfig_line_commentless fuel) :=
  splits_palt
    (splits_pmap (splits_pdelim splits_pspace0 (splits_directiveP fuel)
      splits_pspace0))
    (splits_pmany1
      (splits_palt (splits_pmap (splits_walter_code fuel))
        (splits_pmap (splits_expressionP fuel))) fuel)

theorem splits_rtconfig_line (fuel : Nat) : Splits (rtconfig_line fuel) :=
  splits_palt
    (splits_pmap (splits_pseq (splits_rtconfig_line_commentless fuel)
      (splits_popt splits_commentP)))
    (splits_pmap splits_commentP)

theorem splits_rtconfig_newline : Splits rtconfig_newline :=
  splits_pmap (splits_pchar _)

theorem splits_rtconfigP (fuel : Nat) : Splits (rtconfigP fuel) :=
  splits_pmap
    (splits_pseq (splits_pmany0 splits_rtconfig_newline fuel)
      (splits_pseq
        (splits_pseq (splits_rtconfig_line fuel)
          (splits_pmany0
            (splits_pmap (splits_pseq
              (splits_pmany1 splits_rtconfig_newline fuel)
              (splits_rtconfig_line fuel))) fuel))
        (splits_pmany0 splits_rtconfig_newline fuel)))

/-! ### Rendering lemmas: parsed items reproduce their consumed text -/

/-- Is this item a directive? -/
def RtconfigContent.isDirective : RtconfigContent → Bool
  | .directive _ => true
  | _ => false

/-- Is this item an expression? -/
def RtconfigContent.isExpression : RtconfigContent → Bool
  | .expression _ => true
  | _ => false

theorem renderContents_append (a b : List RtconfigContent) :
    renderContents (a ++ b) = renderContents a ++ renderContents b := by
  simp [renderContents]

theorem renderContents_single (x : RtconfigContent) :
    renderContents [x] = renderContent x := by
  simp [renderContents]

theorem pmany0_renders {α : Type} {p : P α} {f : α → List Char}
    (good : α → Prop)
    (hp : ∀ s c r v, p s = .ok c r v → good v → f v = c) :
    ∀ fuel s c r vs, pmany0 p fuel s = .ok c r vs → (∀ v ∈ vs, good v) →
      (vs.map f).flatten = c := by
  intro fuel
  induction fuel with
  | zero =>
      intro s c r vs h
      simp [pmany0] at h
  | succ fl ih =>
      intro s c r vs h hg
      unfold pmany0 at h
      split at h
      next =>
        cases h
        simp
      next => cases h
      next c1 r1 v1 h1 =>
        split at h
        next => cases h
        next =>
          split at h
          next c2 r2 vs2 h2 =>
            cases h
            have hv1 : f v1 = c1 := hp s c1 r1 v1 h1 (hg v1 (by simp))
            have hrest : (vs2.map f).flatten = c2 :=
              ih r1 c2 r vs2 h2 (fun v hv => hg v (by simp [hv]))
            simp [hv1, hrest]
          next => cases h
          next => cases h

theorem pmany1_renders {α : Type} {p : P α} {f : α → List Char}
    (good : α → Prop)
    (hp : ∀ s c r v, p s = .ok c r v → good v → f v = c)
    (fuel : Nat) (s : List Char) (c r : List Char) (vs : List α)
    (h : pmany1 p fuel s = .ok c r vs) (hg : ∀ v ∈ vs, good v) :
    (vs.map f).flatten = c := by
  unfold pmany1 at h
  split at h
  next => cases h
  next => cases h
  next c1 r1 v1 h1 =>
    split at h
    next => cases h
    next =>
      split at h
      next c2 r2 vs2 h2 =>
        cases h
        have hv1 : f v1 = c1 := hp s c1 r1 v1 h1 (hg v1 (by simp))
        have hrest : (vs2.map f).flatten = c2 :=
          pmany0_renders good hp fuel r1 c2 r vs2 h2
            (fun v hv => hg v (by simp [hv]))
        simp [hv1, hrest]
      next => cases h
      next => cases h

theorem brace_pair_shape {fuel : Nat} {s c r v : List Char}
    (h : brace_pair fuel s = .ok c r v) :
    v = c ∧ ∃ mid, c = '{' :: mid ++ ['}'] := by
  match fuel with
  | 0 => simp [brace_pair] at h
  | fl + 1 =>
      unfold brace_pair at h
      obtain ⟨hv, w, hw⟩ := precog_ok h
      obtain ⟨c1, r1, c23, h1, h23, hc⟩ := pseq_ok hw
      obtain ⟨c2, r2, c3, h2, h3, hc23⟩ := pseq_ok h23
      obtain ⟨hc1, _⟩ := pchar_ok h1
      obtain ⟨hc3, _⟩ := pchar_ok h3
      refine ⟨hv, c2, ?_⟩
      rw [hc, hc23, hc1, hc3]
      rfl

theorem expressionP_shape {fuel : Nat} {s c r v : List Char}
    (h : expressionP fuel s = .ok c r v) :
    c = '#' :: '{' :: (v ++ ['}']) := by
  unfold expressionP at h
  split at h
  next c1 r1 w h1 =>
    cases h
    obtain ⟨c2, r2, c3, w2, h2, h3, hc⟩ := pprec_ok h1
    obtain ⟨hc2, _⟩ := pchar_ok h2
    obtain ⟨hvw, mid, hmid⟩ := brace_pair_shape h3
    subst hvw
    rw [hc, hc2, hmid]
    simp
  next => cases h
  next => cases h

theorem walter_code_val {fuel : Nat} {s c r v : List Char}
    (h : walter_code fuel s = .ok c r v) : v = c :=
  (precog_ok h).1

theorem commentP_val {s c r v : List Char}
    (h : commentP s = .ok c r v) : v = c :=
  (precog_ok h).1

theorem rtconfig_newline_renders {s c r : List Char} {v : RtconfigContent}
    (h : rtconfig_newline s = .ok c r v) : renderContent v = c := by
  obtain ⟨u, hu, hv⟩ := pmap_ok h
  obtain ⟨hc, _⟩ := pchar_ok hu
  subst hv
  rw [hc]
  rfl

theorem line_body_renders {fuel : Nat} {s c r : List Char}
    {v : RtconfigContent}
    (h : (palt (pmap (walter_code fuel) RtconfigContent.code)
      (pmap (expressionP fuel) RtconfigContent.expression)) s = .ok c r v) :
    renderContent v = c := by
  rcases palt_ok h with h1 | ⟨_, h1⟩
  · obtain ⟨w, hw, hv⟩ := pmap_ok h1
    subst hv
    rw [walter_code_val hw]
    rfl
  · obtain ⟨w, hw, hv⟩ := pmap_ok h1
    subst hv
    have := expressionP_shape hw
    simp [renderContent, this]

theorem rtconfig_line_commentless_renders {fuel : Nat} {s c r : List Char}
    {items : List RtconfigContent}
    (h : rtconfig_line_commentless fuel s = .ok c r items)
    (hnd : ∀ x ∈ items, x.isDirective = false) :
    renderContents items = c := by
  rcases palt_ok h with h1 | ⟨_, h1⟩
  · obtain ⟨d, _, hv⟩ := pmap_ok h1
    subst hv
    exact absurd (hnd (.directive d) (by simp)) (by simp [RtconfigContent.isDirective])
  · exact pmany1_renders (fun _ => True)
      (fun s c r v hv _ => line_body_renders hv) fuel s c r items h1
      (fun v _ => trivial)

theorem rtconfig_line_renders {fuel : Nat} {s c r : List Char}
    {items : List RtconfigContent}
    (h : rtconfig_line fuel s = .ok c r items)
    (hnd : ∀ x ∈ items, x.isDirective = false) :
    renderContents items = c := by
  rcases palt_ok h with h1 | ⟨_, h1⟩
  · obtain ⟨vw, hvw, hv⟩ := pmap_ok h1
    obtain ⟨c1, r1, c2, hl, hc, hcc⟩ := pseq_ok hvw
    subst hv
    subst hcc
    rw [renderContents_append]
    have hnd1 : ∀ x ∈ vw.1, x.isDirective = false := by
      intro x hx
      exact hnd x (by simp [hx])
    rw [rtconfig_line_commentless_renders hl hnd1]
    rcases popt_ok hc with ⟨w, hw, hcmt⟩ | ⟨hw, hc2, _⟩
    · rw [hw]
      show c1 ++ renderContents [RtconfigContent.comment w] = c1 ++ c2
      rw [renderContents_single, commentP_val hcmt]
      rfl
    · rw [hw]
      show c1 ++ renderContents [] = c1 ++ c2
      rw [hc2]
      rfl
  · obtain ⟨w, hw, hv⟩ := pmap_ok h1
    subst hv
    rw [renderContents_single, commentP_val hw]
    rfl

theorem renderContents_flatten (L : List (List RtconfigContent)) :
    renderContents L.flatten = (L.map renderContents).flatten := by
  induction L with
  | nil => rfl
  | cons x xs ih => simp [renderContents_append, ih]

theorem rtconfigP_renders {fuel : Nat} {s c r : List Char}
    {items : List RtconfigContent}
    (h : rtconfigP fuel s = .ok c r items)
    (hnd : ∀ x ∈ items, x.isDirective = false) :
    renderContents items = c := by
  obtain ⟨vw, hvw, hv⟩ := pmap_ok h
  obtain ⟨c1, r1, c234, h1, h234, hc⟩ := pseq_ok hvw
  obtain ⟨c23, r23, c4, h23, h4, hc234⟩ := pseq_ok h234
  obtain ⟨c2, r2, c3, h2, h3, hc23⟩ := pseq_ok h23
  subst hv
  subst hc
  subst hc234
  subst hc23
  have hndAll := hnd
  simp only [List.mem_append] at hndAll
  have hnl1 : (vw.1.map renderContent).flatten = c1 :=
    pmany0_renders (fun _ => True)
      (fun s c r v hv _ => rtconfig_newline_renders hv) fuel s c1 r1 vw.1 h1
      (fun v _ => trivial)
  have hline : renderContents vw.2.1.1 = c2 :=
    rtconfig_line_renders h2
      (fun x hx => hndAll x (by simp [hx]))
  have hloop : (vw.2.1.2.map renderContents).flatten = c3 := by
    refine pmany0_renders
      (fun chunk => ∀ x ∈ chunk, x.isDirective = false)
      ?_ fuel r2 c3 r23 vw.2.1.2 h3 ?_
    · intro s c r chunk hch hg
      obtain ⟨w2, hw2, hv2⟩ := pmap_ok hch
      obtain ⟨ca, ra, cb, ha, hb, hcc⟩ := pseq_ok hw2
      subst hv2
      subst hcc
      rw [renderContents_append]
      have hna : (w2.1.map renderContent).flatten = ca :=
        pmany1_renders (fun _ => True)
          (fun s c r v hv _ => rtconfig_newline_renders hv) fuel s ca ra w2.1
          ha (fun v _ => trivial)
      have hnb : renderContents w2.2 = cb :=
        rtconfig_line_renders hb
          (fun x hx => hg x (by simp [hx]))
      rw [show renderContents w2.1 = ca from hna, hnb]
    · intro chunk hchunk x hx
      refine hndAll x (Or.inr (Or.inl ?_))
      simp only [List.mem_append, List.mem_flatten]
      exact Or.inr ⟨chunk, hchunk, hx⟩
  have hnl2 : (vw.2.2.map renderContent).flatten = c4 :=
    pmany0_renders (fun _ => True)
      (fun s c r v hv _ => rtconfig_newline_renders hv) fuel r23 c4 r vw.2.2 h4
      (fun v _ => trivial)
  rw [renderContents_append, renderContents_append, renderContents_append,
    show renderContents vw.1 = c1 from hnl1, hline,
    renderContents_flatten, hloop,
    show renderContents vw.2.2 = c4 from hnl2]

theorem parse_rtconfig_roundtrip {s : List Char} {items : List RtconfigContent}
    (h : parse_rtconfig s = some items)
    (hnd : ∀ x ∈ items, x.isDirective = false) :
    renderContents items = s := by
  unfold parse_rtconfig at h
  split at h
  next c r2 its hok =>
    split at h
    next hre =>
      cases h
      have hc := splits_rtconfigP _ s c r2 items hok
      have hr : r2 = [] := by simpa [List.isEmpty_iff] using hre
      subst hr
      rw [rtconfigP_renders hok hnd]
      simpa using hc
    next => cases h
  next => cases h

/-- An item that is neither a directive nor an expression (plain text
content). -/
def plainContent : RtconfigContent → Bool
  | .newline => true
  | .code _ => true
  | .comment _ => true
  | _ => false

theorem processContents_plain (O : Oracles) (path : String) :
    ∀ (items : List RtconfigContent) (fuel : Nat) (col : Nat)
      (b : ThemeBuilder),
    items.length < fuel →
    (∀ x ∈ items, plainContent x = true) → b.skip_next_newline = false →
    processContents O fuel b path (annotateContents col items) =
      .ok { b with parts := b.parts ++ items.map renderContent } := by
  intro items
  induction items with
  | nil =>
      intro fuel col b hfuel h hskip
      match fuel, hfuel with
      | f + 1, _ => simp [annotateContents, processContents]
  | cons x rest ih =>
      intro fuel col b hfuel h hskip
      have hx := h x (by simp)
      have hrest : ∀ y ∈ rest, plainContent y = true :=
        fun y hy => h y (by simp [hy])
      match fuel, hfuel with
      | f + 1, hfuel =>
          have hflt : rest.length < f := by
            simpa using Nat.lt_of_succ_lt_succ hfuel
          match x with
          | .newline =>
              rw [annotateContents]
              rw [show processContents O (f + 1) b path
                  (.newline :: annotateContents 1 rest) =
                processContents O f { b with parts := b.parts ++ [['\n']] }
                  path (annotateContents 1 rest) by
                simp [processContents, feed, hskip]]
              rw [ih f 1 { b with parts := b.parts ++ [['\n']] } hflt hrest
                hskip]
              simp [renderContent]
          | .code t =>
              rw [annotateContents]
              rw [show processContents O (f + 1) b path
                  (.code t :: annotateContents (colAfter t col) rest) =
                processContents O f { b with parts := b.parts ++ [t] } path
                  (annotateContents (colAfter t col) rest) by
                simp [processContents, feed]]
              rw [ih f (colAfter t col) { b with parts := b.parts ++ [t] }
                hflt hrest hskip]
              simp [renderContent]
          | .comment t =>
              rw [annotateContents]
              rw [show processContents O (f + 1) b path
                  (.comment t :: annotateContents (colAfter t col) rest) =
                processContents O f { b with parts := b.parts ++ [t] } path
                  (annotateContents (colAfter t col) rest) by
                simp [processContents, feed]]
              rw [ih f (colAfter t col) { b with parts := b.parts ++ [t] }
                hflt hrest hskip]
              simp [renderContent]

/-! ### State-preservation lemmas for the builder -/

theorem lookupRes_append {rs : List (String × String)} {k v : String}
    (kv : String × String) (h : lookupRes rs k = some v) :
    lookupRes (rs ++ [kv]) k = some v := by
  induction rs with
  | nil => cases h
  | cons hd tl ih =>
      obtain ⟨k2, v2⟩ := hd
      by_cases hk : k2 = k
      · simpa [lookupRes, hk] using h
      · simp only [List.cons_append, lookupRes, hk, if_false] at h ⊢
        exact ih h

theorem resourceStep_preserves {dest : String} {b : ThemeBuilder}
    {e : GlobEntry} {k v : String}
    (h : lookupRes b.resources k = some v) :
    lookupRes (resourceStep dest b e).resources k = some v := by
  cases e with
  | errEntry p msg => simpa [resourceStep] using h
  | okEntry p =>
      cases hf : fileName p with
      | none => simpa [resourceStep, hf] using h
      | some n =>
          by_cases hex : (lookupRes b.resources (relJoin dest n)).isSome
          · simpa [resourceStep, hf, hex] using h
          · simpa [resourceStep, hf, hex] using lookupRes_append (relJoin dest n, p) h

theorem resourceStep_fields (dest : String) (b : ThemeBuilder) (e : GlobEntry) :
    (resourceStep dest b e).parts = b.parts ∧
    (resourceStep dest b e).config = b.config ∧
    (resourceStep dest b e).skip_next_newline = b.skip_next_newline ∧
    (resourceStep dest b e).pending = b.pending := by
  cases e with
  | errEntry p msg => simp [resourceStep]
  | okEntry p =>
      cases hf : fileName p with
      | none => simp [resourceStep, hf]
      | some n =>
          by_cases hex : (lookupRes b.resources (relJoin dest n)).isSome <;>
            simp [resourceStep, hf, hex]

theorem foldl_resourceStep_preserves (dest : String)
    (entries : List GlobEntry) :
    ∀ (b : ThemeBuilder) (k v : String), lookupRes b.resources k = some v →
      lookupRes ((entries.foldl (resourceStep dest) b).resources) k = some v := by
  induction entries with
  | nil => intro b k v h; exact h
  | cons e rest ih =>
      intro b k v h
      exact ih (resourceStep dest b e) k v (resourceStep_preserves h)

theorem foldl_resourceStep_fields (dest : String) (entries : List GlobEntry) :
    ∀ b : ThemeBuilder,
      (entries.foldl (resourceStep dest) b).parts = b.parts ∧
      (entries.foldl (resourceStep dest) b).config = b.config ∧
      (entries.foldl (resourceStep dest) b).skip_next_newline =
        b.skip_next_newline ∧
      (entries.foldl (resourceStep dest) b).pending = b.pending := by
  induction entries with
  | nil => intro b; exact ⟨rfl, rfl, rfl, rfl⟩
  | cons e rest ih =>
      intro b
      obtain ⟨h1, h2, h3, h4⟩ := ih (resourceStep dest b e)
      obtain ⟨g1, g2, g3, g4⟩ := resourceStep_fields dest b e
      simp only [List.foldl_cons]
      exact ⟨h1.trans g1, h2.trans g2, h3.trans g3, h4.trans g4⟩

theorem feed_directive_resource_preserves {O : Oracles} {b : ThemeBuilder}
    {pattern dest path k v : String}
    (h : lookupRes b.resources k = some v) :
    lookupRes (feed_directive_resource O b pattern dest path).resources k =
      some v :=
  foldl_resourceStep_preserves dest _ b k v h

theorem feed_directive_resource_fields (O : Oracles) (b : ThemeBuilder)
    (pattern dest path : String) :
    (feed_directive_resource O b pattern dest path).parts = b.parts ∧
    (feed_directive_resource O b pattern dest path).config = b.config ∧
    (feed_directive_resource O b pattern dest path).skip_next_newline =
      b.skip_next_newline ∧
    (feed_directive_resource O b pattern dest path).pending = b.pending :=
  foldl_resourceStep_fields dest _ b

theorem foldl_fdr_preserves (O : Oracles) (path : String) (l : List Reg) :
    ∀ (b : ThemeBuilder) (k v : String), lookupRes b.resources k = some v →
      lookupRes ((l.foldl
        (fun x r => feed_directive_resource O x r.pattern r.dest path))
          b).resources k = some v := by
  induction l with
  | nil => intro b k v h; exact h
  | cons reg rest ih =>
      intro b k v h
      exact ih _ k v (feed_directive_resource_preserves h)

theorem foldl_fdr_fields (O : Oracles) (path : String) (l : List Reg) :
    ∀ b : ThemeBuilder,
      ((l.foldl (fun x r => feed_directive_resource O x r.pattern r.dest path))
        b).parts = b.parts ∧
      ((l.foldl (fun x r => feed_directive_resource O x r.pattern r.dest path))
        b).config = b.config ∧
      ((l.foldl (fun x r => feed_directive_resource O x r.pattern r.dest path))
        b).skip_next_newline = b.skip_next_newline := by
  induction l with
  | nil => intro b; exact ⟨rfl, rfl, rfl⟩
  | cons reg rest ih =>
      intro b
      obtain ⟨h1, h2, h3⟩ := ih (feed_directive_resource O b reg.pattern reg.dest path)
      obtain ⟨g1, g2, g3, _⟩ :=
        feed_directive_resource_fields O b reg.pattern reg.dest path
      simp only [List.foldl_cons]
      exact ⟨h1.trans g1, h2.trans g2, h3.trans g3⟩

theorem drainPending_pending (O : Oracles) (b : ThemeBuilder) (path : String) :
    (drainPendingResources O b path).pending = [] := rfl

theorem drainPending_fields (O : Oracles) (b : ThemeBuilder) (path : String) :
    (drainPendingResources O b path).parts = b.parts ∧
    (drainPendingResources O b path).config = b.config ∧
    (drainPendingResources O b path).skip_next_newline =
      b.skip_next_newline := by
  unfold drainPendingResources
  obtain ⟨h1, h2, h3⟩ := foldl_fdr_fields O path b.pending b
  exact ⟨h1, h2, h3⟩

theorem drainPending_preserves {O : Oracles} {b : ThemeBuilder} {path k v : String}
    (h : lookupRes b.resources k = some v) :
    lookupRes (drainPendingResources O b path).resources k = some v :=
  foldl_fdr_preserves O path b.pending b k v h

theorem importProps_fields (O : Oracles) (path : String) (sec : Option String) :
    ∀ (props : List (String × String)) (b b' : ThemeBuilder),
      importProps O b path sec props = .ok b' →
      b'.parts = b.parts ∧ b'.resources = b.resources ∧
      b'.skip_next_newline = b.skip_next_newline ∧
      ∃ extra, b'.pending = b.pending ++ extra := by
  intro props
  induction props with
  | nil =>
      intro b b' h
      cases h
      exact ⟨rfl, rfl, rfl, [], by simp⟩
  | cons kv rest ih =>
      intro b b' h
      unfold importProps at h
      split at h
      next regs out heq =>
        obtain ⟨h1, h2, h3, extra, h4⟩ := ih _ _ h
        exact ⟨h1, h2, h3, regs ++ extra, by
          rw [h4]
          simp [List.append_assoc]⟩
      next => cases h
      next => cases h

theorem importSections_fields (O : Oracles) (path : String) :
    ∀ (ini : IniData) (b b' : ThemeBuilder),
      importSections O b path ini = .ok b' →
      b'.parts = b.parts ∧ b'.resources = b.resources ∧
      b'.skip_next_newline = b.skip_next_newline ∧
      ∃ extra, b'.pending = b.pending ++ extra := by
  intro ini
  induction ini with
  | nil =>
      intro b b' h
      cases h
      exact ⟨rfl, rfl, rfl, [], by simp⟩
  | cons secProps rest ih =>
      intro b b' h
      unfold importSections at h
      split at h
      next b2 heq =>
        obtain ⟨h1, h2, h3, e1, h4⟩ := importProps_fields O path secProps.1 secProps.2 b b2 heq
        obtain ⟨g1, g2, g3, e2, g4⟩ := ih b2 b' h
        exact ⟨g1.trans h1, g2.trans h2, g3.trans h3, e1 ++ e2,
          by rw [g4, h4, List.append_assoc]⟩
      next => cases h

theorem importConfig_fields {O : Oracles} {b b' : ThemeBuilder} {path : String}
    (h : importConfig O b path = .ok b') :
    b'.parts = b.parts ∧ b'.resources = b.resources ∧
    b'.skip_next_newline = b.skip_next_newline ∧
    ∃ extra, b'.pending = b.pending ++ extra := by
  unfold importConfig at h
  split at h
  next => cases h
  next ini heq => exact importSections_fields O path ini b b' h

theorem run_script_fields {O : Oracles} {b b' : ThemeBuilder} {path : String}
    (h : run_script O b path = .ok b') :
    b'.parts = b.parts ∧ b'.resources = b.resources ∧
    b'.skip_next_newline = b.skip_next_newline ∧ b'.config = b.config ∧
    ∃ extra, b'.pending = b.pending ++ extra := by
  unfold run_script at h
  split at h
  next => cases h
  next script heq =>
    split at h
    next => cases h; exact ⟨rfl, rfl, rfl, rfl, _, rfl⟩
    next => cases h

theorem feed_preserves_resources {O : Oracles} {b b' : ThemeBuilder}
    {x : FedContent} {path : String} {k v : String}
    (h : feed O b x path = .ok b')
    (hk : lookupRes b.resources k = some v) :
    lookupRes b'.resources k = some v := by
  cases x with
  | newline =>
      simp only [feed] at h
      split at h <;> (cases h; exact hk)
  | code t =>
      simp only [feed] at h
      cases h
      exact hk
  | comment t =>
      simp only [feed] at h
      cases h
      exact hk
  | expression frag col =>
      simp only [feed] at h
      split at h
      next regs out heq =>
        cases h
        exact drainPending_preserves hk
      next => cases h
      next => cases h
  | directive d =>
      cases d with
      | includeFile p =>
          simp only [feed, feed_directive_include] at h
          split at h
          next => cases h
          next =>
            have := (importConfig_fields h).2.1
            rw [this]
            exact hk
          next =>
            have := (run_script_fields h).2.1
            rw [this]
            exact hk
      | resource pattern dest =>
          simp only [feed] at h
          cases h
          exact feed_directive_resource_preserves hk
      | unknown name contents =>
          simp only [feed] at h
          cases h
          exact hk

theorem feed_newline_skip (O : Oracles) (b : ThemeBuilder) (path : String)
    (h : b.skip_next_newline = true) :
    feed O b .newline path = .ok { b with skip_next_newline := false } := by
  simp [feed, h]

theorem feed_newline_emit (O : Oracles) (b : ThemeBuilder) (path : String)
    (h : b.skip_next_newline = false) :
    feed O b .newline path = .ok { b with parts := b.parts ++ [['\n']] } := by
  simp [feed, h]

theorem feed_resource_directive_state (O : Oracles) (b : ThemeBuilder)
    (pattern dest path : String) :
    ∃ b', feed O b (.directive (.resource pattern dest)) path = .ok b' ∧
      b'.parts = b.parts ∧ b'.skip_next_newline = true := by
  refine ⟨_, rfl, ?_, ?_⟩
  · exact (feed_directive_resource_fields O
      { b with skip_next_newline := true } pattern dest path).1
  · exact (feed_directive_resource_fields O
      { b with skip_next_newline := true } pattern dest path).2.2.1

theorem feed_unknown_directive_state (O : Oracles) (b : ThemeBuilder)
    (name contents : List Char) (path : String) :
    feed O b (.directive (.unknown name contents)) path =
      .ok { b with
            skip_next_newline := true,
            parts :=
              b.parts ++ [';' :: ' ' :: '#' :: (name ++ contents ++ ['\n'])] } :=
  rfl

theorem feed_include_ok_state {O : Oracles} {b b' : ThemeBuilder} {p : String}
    {path : String}
    (h : feed O b (.directive (.includeFile p)) path = .ok b') :
    b'.parts = b.parts ∧ b'.skip_next_newline = true := by
  simp only [feed, feed_directive_include] at h
  split at h
  next => cases h
  next =>
    obtain ⟨h1, _, h3, _⟩ := importConfig_fields h
    exact ⟨h1, h3⟩
  next =>
    obtain ⟨h1, _, h3, _⟩ := run_script_fields h
    exact ⟨h1, h3⟩

theorem feed_expression_eq {O : Oracles} {b : ThemeBuilder}
    {frag : List Char} {col : Nat} {path : String} {regs : List Reg}
    {out : List Char}
    (h : serialise_expression O frag col true = (regs, .ok out)) :
    feed O b (.expression frag col) path =
      .ok (drainPendingResources O
        { b with pending := b.pending ++ regs,
                 parts := b.parts ++ [out] } path) := by
  simp [feed, h]

theorem feed_expression_ok_pending {O : Oracles} {b b' : ThemeBuilder}
    {frag : List Char} {col : Nat} {path : String}
    (h : feed O b (.expression frag col) path = .ok b') :
    b'.pending = [] := by
  simp only [feed] at h
  split at h
  next regs out heq =>
    cases h
    rfl
  next => cases h
  next => cases h

/-! ## Concrete oracles for witnesses and counterexamples -/

/-- Oracle whose engine always evaluates to `nil` and registers nothing. -/
def trivialOracle : Oracles :=
  { eval := fun _ => ([], .ok .nil), exec := fun _ => ([], .ok ()),
    globMatches := fun _ => [], fs := fun _ => none, iniFs := fun _ => none }

/-- Oracle whose engine evaluates every expression to the color
`rgb(1, 2, 3)`. -/
def rgbOracle : Oracles :=
  { eval := fun _ => ([], .ok (.userdataRGB ⟨1, 2, 3⟩)),
    exec := fun _ => ([], .ok ()),
    globMatches := fun _ => [], fs := fun _ => none, iniFs := fun _ => none }

/-- Oracle whose engine evaluates every expression to a Lua table. -/
def tableOracle : Oracles :=
  { eval := fun _ => ([], .ok .table), exec := fun _ => ([], .ok ()),
    globMatches := fun _ => [], fs := fun _ => none, iniFs := fun _ => none }

/-- A filesystem with a descriptor that `#include`s another descriptor. -/
def includeOracle : Oracles :=
  { eval := fun _ => ([], .ok .nil), exec := fun _ => ([], .ok ()),
    globMatches := fun _ => [],
    fs := fun p =>
      if p = "/t/main.txt" then some "#include \"inc.txt\"\nX"
      else if p = "/t/inc.txt" then some "A" else none,
    iniFs := fun _ => none }

/-- The registration staged by `resource("x.png")`. -/
def regXPng : Reg := ⟨"x.png", ""⟩

/-- Oracle whose engine registers `x.png` as a resource during every
evaluation, with a config file whose value holds an expression. -/
def configRegOracle : Oracles :=
  { eval := fun _ => ([regXPng], .ok .nil),
    exec := fun _ => ([regXPng], .ok ()),
    globMatches := fun _ => [],
    fs := fun p => if p = "/t/s.lua" then some "resource stub" else none,
    iniFs := fun p =>
      if p = "/t/a.ini" then some [(some "sec", [("k", "#\x7b1\x7d")])]
      else none }

/-- The `todo!` panic message produced by `serialise_expression` for each
unsupported value kind. -/
def todoPanicMsg : LuaValue → String
  | .table => "not yet implemented: Table"
  | .function => "not yet implemented: Function"
  | .thread => "not yet implemented: Thread"
  | .userdataOther => "not yet implemented: UserData"
  | .lightuserdata => "not yet implemented: LightUserData"
  | .luaError => "not yet implemented: Error"
  | .other => "not yet implemented: Other"
  | _ => ""

/-- The value kinds `serialise_expression` cannot serialize. -/
def unsupportedLuaKinds : List LuaValue :=
  [.table, .function, .thread, .userdataOther, .lightuserdata, .luaError,
    .other]

/-- Upper bound on a blend-mode code from the table. -/
theorem blendModeCode_lt {mode : String} {code : Nat}
    (h : blendModeCode mode = some code) : code < 256 := by
  unfold blendModeCode at h
  split_ifs at h <;> (cases h; norm_num)

/-! ## Claim theorems -/

/-- C1 (code bug evidence): the claim — and the repository's own test
`preprocess::tests::test_01` — say an expression in descriptor code that
evaluates to `rgb(1, 2, 3)` expands to the `value()` text `"66051"`, but
`serialise_expression` ignores `is_rtconfig` and renders `value_rev()`
(`"197121"`) on both the descriptor-code and config-value paths.  This
theorem evaluates the embedded code at that failing input. -/
theorem c1_colorvalue_descriptor_uses_value_rev :
    (serialise_expression rgbOracle "rgb(1, 2, 3)".toList 5 true).2 =
      SRes.ok "197121".toList ∧
    (serialise_expression rgbOracle "rgb(1, 2, 3)".toList 5 false).2 =
      SRes.ok "197121".toList ∧
    RGB.value ⟨1, 2, 3⟩ = 66051 ∧
    RGB.value_rev ⟨1, 2, 3⟩ = 197121 ∧
    "197121".toList ≠ "66051".toList := by
  refine ⟨rfl, rfl, by decide, by decide, by decide⟩

/-- C10: the script-exposed method `to_rgb()` on a 4-channel color returns
the 3-channel color of its first three channels, discarding alpha, and it
is registered on `RGBA` userdata. -/
theorem c10_rgba_to_rgb :
    (∀ r g b a : Nat, (RGBA.mk r g b a).to_rgb = RGB.mk r g b) ∧
    (∀ c : RGBA, callRGBAMethod c "to_rgb" none = .ok (.vRGB c.to_rgb)) ∧
    "to_rgb" ∈ rgbaMethods := by
  refine ⟨fun r g b a => rfl, fun c => rfl, by decide⟩

/-- C6: `negative()` is defined exactly on 3-channel colors: on `RGB` it
returns `value_rev() - 0x1000000` as a signed integer and is exposed to
scripts; on `RGBA` it is not registered, so calling it is an error; and
`RGB(1,2,3).negative()` equals `RGB(1,2,3).value_rev() - 0x1000000`. -/
theorem c6_negative_rgb_only :
    (∀ c : RGB, c.negative = (c.value_rev : Int) - 0x1000000) ∧
    (∀ c : RGB, callRGBMethod c "negative" none = .ok (.vInt c.negative)) ∧
    (∀ c : RGBA, callRGBAMethod c "negative" none =
      .error "attempt to call a nil value (method negative)") ∧
    "negative" ∈ rgbMethods ∧ "negative" ∉ rgbaMethods ∧
    RGB.negative ⟨1, 2, 3⟩ = (RGB.value_rev ⟨1, 2, 3⟩ : Int) - 0x1000000 ∧
    RGB.negative ⟨1, 2, 3⟩ = -16580095 := by
  refine ⟨fun c => rfl, fun c => rfl, fun c => rfl, by decide, by decide,
    rfl, by decide⟩

/-- C5: constructing a color from a packed integer: values up to `0xFFFFFF`
default to three channels `(v>>16 & 0xFF, v>>8 & 0xFF, v & 0xFF)` (written
in the arithmetically equal `div`/`mod` form), larger `u32` values default
to four channels `(v>>24, v>>16 & 0xFF, v>>8 & 0xFF, v & 0xFF)`; forcing 3
channels on a value above `0xFFFFFF` errors, any forced channel count
outside `{3,4}` errors, and the three concrete examples of the claim
hold. -/
theorem c5_color_from_packed :
    (∀ v : Nat, v < 2 ^ 32 → v ≤ 0xffffff →
      Color.from_value v =
        .ok (.rgb ⟨v / 2 ^ 16 % 2 ^ 8, v / 2 ^ 8 % 2 ^ 8, v % 2 ^ 8⟩)) ∧
    (∀ v : Nat, v < 2 ^ 32 → 0xffffff < v →
      Color.from_value v =
        .ok (.rgba ⟨v / 2 ^ 24, v / 2 ^ 16 % 2 ^ 8, v / 2 ^ 8 % 2 ^ 8,
          v % 2 ^ 8⟩)) ∧
    (∀ v : Nat, 0xffffff < v →
      Color.new_with_channels v 3 = .error (.valueOutOfBounds v 3)) ∧
    (∀ v ch : Nat, ch ≠ 3 → ch ≠ 4 →
      Color.new_with_channels v ch = .error (.invalidChannels ch)) ∧
    luaColor 0xFFFFFF none = .ok (.rgb ⟨255, 255, 255⟩) ∧
    luaColor 0x11223344 none = .ok (.rgba ⟨0x11, 0x22, 0x33, 0x44⟩) ∧
    luaColor 0xFFFFFF (some 4) = .ok (.rgba ⟨0, 255, 255, 255⟩) := by
  refine ⟨?_, ?_, ?_, ?_, by rfl, by rfl, by rfl⟩
  · intro v _ hv
    simp [Color.from_value, Color.new_with_channels, hv]
  · intro v h32 hv
    have hlt : v / 2 ^ 24 < 2 ^ 8 := by
      apply Nat.div_lt_of_lt_mul
      calc v < 2 ^ 32 := h32
      _ = 2 ^ 8 * 2 ^ 24 := by norm_num
    simp [Color.from_value, Color.new_with_channels, Nat.not_le.mpr hv,
      Nat.mod_eq_of_lt hlt]
    exact hlt
  · intro v hv
    simp [Color.new_with_channels, Nat.not_le.mpr hv]
  · intro v ch h3 h4
    unfold Color.new_with_channels
    match ch, h3, h4 with
    | 0, _, _ => rfl
    | 1, _, _ => rfl
    | 2, _, _ => rfl
    | 3, h3, _ => exact absurd rfl h3
    | 4, _, h4 => exact absurd rfl h4
    | n + 5, _, _ => rfl

/-- C5 witness: the general clauses of `c5_color_from_packed` instantiated
at `v = 0x11223344`. -/
theorem c5_color_from_packed_witness :
    Color.from_value 0x11223344 =
      .ok (.rgba ⟨0x11223344 / 2 ^ 24, 0x11223344 / 2 ^ 16 % 2 ^ 8,
        0x11223344 / 2 ^ 8 % 2 ^ 8, 0x11223344 % 2 ^ 8⟩) :=
  c5_color_from_packed.2.1 0x11223344 (by norm_num) (by norm_num)

/-- C4: `blend(mode, fraction)` returns
`0x20000 | (round(fraction*256) << 8) | mode_code` for every fraction in
`[0,1]` and every mode of the fixed table
(normal 0x00, add 0x01, dodge 0x02, multiply 0x03, overlay 0x04,
hsv 0xFE); a fraction outside `[0,1]` is an error; an unknown mode is an
error listing the valid names; and the three bit-pattern examples hold.
The source computes the result with `+`, equal to the claim's `|` because
the fields are disjoint (`blend_fields_or_eq_add`). -/
theorem c4_blend_bitfield :
    (∀ (frac : ℚ) (mode : String) (code : Nat),
      blendModeCode mode = some code → 0 ≤ frac → frac ≤ 1 →
      blend mode frac =
        .ok (0x20000 ||| ((⌊frac * 256 + 1 / 2⌋).toNat <<< 8) ||| code)) ∧
    (∀ (frac : ℚ) (mode : String), frac < 0 ∨ 1 < frac →
      blend mode frac =
        .error s!"frac `{frac}` must be a value between 0.0 and 1.0") ∧
    (∀ (frac : ℚ) (mode : String), 0 ≤ frac → frac ≤ 1 →
      blendModeCode mode = none →
      blend mode frac =
        .error (s!"mode `{mode}` must be one of: " ++ blendModeList)) ∧
    blendModeCode "normal" = some 0x00 ∧ blendModeCode "add" = some 0x01 ∧
    blendModeCode "dodge" = some 0x02 ∧
    blendModeCode "multiply" = some 0x03 ∧
    blendModeCode "overlay" = some 0x04 ∧ blendModeCode "hsv" = some 0xFE ∧
    blend "normal" 0 = .ok 0b100000000000000000 ∧
    blend "normal" 1 = .ok 0b110000000000000000 ∧
    blend "hsv" (12 / 100) = .ok 0b100001111111111110 := by
  have main : ∀ (frac : ℚ) (mode : String) (code : Nat),
      blendModeCode mode = some code → 0 ≤ frac → frac ≤ 1 →
      blend mode frac =
        .ok (0x20000 ||| ((⌊frac * 256 + 1 / 2⌋).toNat <<< 8) ||| code) := by
    intro frac mode code hcode h0 h1
    have hn : (⌊frac * 256 + 1 / 2⌋).toNat ≤ 256 := by
      have hle : frac * 256 + 1 / 2 ≤ 256 + 1 / 2 := by nlinarith
      have := Int.floor_le_floor hle
      have h2 : ⌊(256 + 1 / 2 : ℚ)⌋ = 256 := by norm_num [Int.floor_eq_iff]
      omega
    rw [blend_fields_or_eq_add _ _ hn (blendModeCode_lt hcode)]
    simp only [blend, not_and, not_le]
    rw [if_neg (by simp [h0, h1]), hcode]
  refine ⟨main, ?_, ?_, by decide, by decide, by decide, by decide, by decide,
    by decide, ?_, ?_, ?_⟩
  · intro frac mode h
    simp only [blend]
    rw [if_pos]
    intro hc
    rcases h with h | h
    · exact absurd hc.1 (by simpa using h)
    · exact absurd hc.2 (by simpa using h)
  · intro frac mode h0 h1 hcode
    simp only [blend]
    rw [if_neg (by simp [h0, h1]), hcode]
  · have hf : (⌊(0 : ℚ) * 256 + 1 / 2⌋) = 0 := by norm_num [Int.floor_eq_iff]
    rw [main 0 "normal" 0x00 (by decide) le_rfl (by norm_num), hf]
    rfl
  · have hf : (⌊(1 : ℚ) * 256 + 1 / 2⌋) = 256 := by
      norm_num [Int.floor_eq_iff]
    rw [main 1 "normal" 0x00 (by decide) (by norm_num) le_rfl, hf]
    rfl
  · have hf : (⌊(12 / 100 : ℚ) * 256 + 1 / 2⌋) = 31 := by
      norm_num [Int.floor_eq_iff]
    rw [main (12 / 100) "hsv" 0xFE (by decide) (by norm_num) (by norm_num), hf]
    rfl

/-- C4 witness: the general in-range clause of `c4_blend_bitfield`
instantiated at `blend("hsv", 0.12)`. -/
theorem c4_blend_bitfield_witness :
    blend "hsv" (12 / 100) =
      .ok (0x20000 |||
        ((⌊(12 / 100 : ℚ) * 256 + 1 / 2⌋).toNat <<< 8) ||| 0xFE) :=
  c4_blend_bitfield.1 (12 / 100) "hsv" 0xFE (by decide) (by norm_num)
    (by norm_num)

/-- C3: once a destination is present in the resource manifest its mapped
source is never changed: any single `#resource` resolution preserves it,
any sequence of queued `resource()` registrations preserves it, feeding
any further content item preserves it, and a conflicting match is dropped
with a warning while processing continues (the registration functions are
total and raise no error). -/
theorem c3_first_registration_wins :
    (∀ (O : Oracles) (b : ThemeBuilder) (pattern dest path k v : String),
      lookupRes b.resources k = some v →
      lookupRes (feed_directive_resource O b pattern dest path).resources k =
        some v) ∧
    (∀ (O : Oracles) (path : String) (rs : List Reg) (b : ThemeBuilder)
      (k v : String),
      lookupRes b.resources k = some v →
      lookupRes ((rs.foldl
        (fun x r => feed_directive_resource O x r.pattern r.dest path))
          b).resources k = some v) ∧
    (∀ (O : Oracles) (b b' : ThemeBuilder) (x : FedContent) (path k v : String),
      feed O b x path = .ok b' → lookupRes b.resources k = some v →
      lookupRes b'.resources k = some v) ∧
    (∀ (dest : String) (b : ThemeBuilder) (p n v : String),
      fileName p = some n →
      lookupRes b.resources (relJoin dest n) = some v →
      resourceStep dest b (.okEntry p) =
        { b with warnings := b.warnings ++
          [s!"resource `{p}` overwrites previous resource at `{relJoin dest n}`"] }) := by
  refine ⟨?_, ?_, ?_, ?_⟩
  · intro O b pattern dest path k v h
    exact feed_directive_resource_preserves h
  · intro O path rs b k v h
    exact foldl_fdr_preserves O path rs b k v h
  · intro O b b' x path k v h hk
    exact feed_preserves_resources h hk
  · intro dest b p n v hn hv
    simp [resourceStep, hn, hv]

/-- C3 witness: a second registration mapping to an already-present
destination is dropped with a warning at a concrete state. -/
theorem c3_first_registration_wins_witness :
    resourceStep "" ⟨[], [], [("x.png", "/a/x.png")], false, [], []⟩
      (.okEntry "/b/x.png") =
      { (⟨[], [], [("x.png", "/a/x.png")], false, [], []⟩ : ThemeBuilder) with
        warnings :=
          [s!"resource `/b/x.png` overwrites previous resource at `x.png`"] } :=
  c3_first_registration_wins.2.2.2 "" ⟨[], [], [("x.png", "/a/x.png")], false, [], []⟩
    "/b/x.png" "x.png" "/a/x.png" (by rfl) (by rfl)

/-- C9 counterexample: serializing a table does not produce a structured
evaluation error that propagates to the caller — it hits `todo!`, i.e. a
process-aborting panic (`SRes.panicked`, not `SRes.luaErr`). -/
theorem c9_unsupported_value_panics_counterexample :
    (serialise_expression tableOracle "x".toList 3 true).2 =
      SRes.panicked "not yet implemented: Table" ∧
    (match (serialise_expression tableOracle "x".toList 3 true).2 with
      | SRes.luaErr _ => true
      | _ => false) = false :=
  ⟨rfl, rfl⟩

/-- C9 amended: evaluation results of unsupported kinds (table, function,
thread, foreign or light userdata, error objects, other) make
`serialise_expression` hit `todo!`: the build aborts by panic — a panic is
not a structured `EvaluateError` — and feeding such an expression aborts
with that panic. -/
theorem c9_unsupported_value_kinds_panic :
    (∀ (O : Oracles) (frag : List Char) (col : Nat) (flag : Bool)
      (regs : List Reg) (v : LuaValue),
      O.eval frag = (regs, .ok v) → v ∈ unsupportedLuaKinds →
      (serialise_expression O frag col flag).2 = .panicked (todoPanicMsg v)) ∧
    (∀ (O : Oracles) (b : ThemeBuilder) (frag : List Char) (col : Nat)
      (path : String) (regs : List Reg) (m : String),
      serialise_expression O frag col true = (regs, .panicked m) →
      feed O b (.expression frag col) path = .error (.panicked m)) ∧
    (∀ (p m e : String),
      PreprocessError.panicked m ≠ PreprocessError.evaluateError p e) := by
  refine ⟨?_, ?_, ?_⟩
  · intro O frag col flag regs v heval hmem
    cases v <;>
      simp_all [serialise_expression, todoPanicMsg, unsupportedLuaKinds]
  · intro O b frag col path regs m h
    simp [feed, h]
  · intro p m e h
    cases h

/-- C9 witness: the amended panic behavior at the table oracle. -/
theorem c9_unsupported_value_kinds_panic_witness :
    (serialise_expression tableOracle "y".toList 4 false).2 =
      .panicked (todoPanicMsg .table) :=
  c9_unsupported_value_kinds_panic.1 tableOracle "y".toList 4 false []
    .table (by rfl) (by decide)

/-- C8 counterexample: an expression embedded in an imported configuration
value whose evaluation registers a resource does not get its registration
drained — after `import_config` returns, the pending queue still holds the
entry and the resource manifest is untouched. -/
theorem c8_config_expression_queue_not_drained :
    importConfig configRegOracle ThemeBuilder.new "/t/a.ini" =
      .ok { ThemeBuilder.new with
            config := [(some "sec", [("k", "")])],
            pending := [regXPng] } ∧
    ([regXPng] : List Reg) ≠ [] :=
  ⟨rfl, by decide⟩

/-- C8 amended: the pending-resource queue is drained and cleared only
after an expression in *descriptor code* evaluates successfully (each
queued entry — including entries left over from earlier script or
config-value evaluations — resolved exactly like a `#resource` directive
against the current file's directory); `import_config` and `run_script`
never drain it: they leave the manifest untouched and only append to the
queue. -/
theorem c8_queue_drained_only_for_descriptor_expressions :
    (∀ (O : Oracles) (b b' : ThemeBuilder) (frag : List Char) (col : Nat)
      (path : String),
      feed O b (.expression frag col) path = .ok b' → b'.pending = []) ∧
    (∀ (O : Oracles) (b : ThemeBuilder) (frag : List Char) (col : Nat)
      (path : String) (regs : List Reg) (out : List Char),
      serialise_expression O frag col true = (regs, .ok out) →
      feed O b (.expression frag col) path =
        .ok { ((b.pending ++ regs).foldl
            (fun x r => feed_directive_resource O x r.pattern r.dest path)
            { b with pending := b.pending ++ regs,
                     parts := b.parts ++ [out] })
          with pending := [] }) ∧
    (∀ (O : Oracles) (b b' : ThemeBuilder) (path : String),
      importConfig O b path = .ok b' →
      b'.resources = b.resources ∧ ∃ extra, b'.pending = b.pending ++ extra) ∧
    (∀ (O : Oracles) (b b' : ThemeBuilder) (path : String),
      run_script O b path = .ok b' →
      b'.resources = b.resources ∧ ∃ extra, b'.pending = b.pending ++ extra) := by
  refine ⟨?_, ?_, ?_, ?_⟩
  · intro O b b' frag col path h
    exact feed_expression_ok_pending h
  · intro O b frag col path regs out h
    rw [feed_expression_eq h]
    rfl
  · intro O b b' path h
    obtain ⟨_, h2, _, extra, h4⟩ := importConfig_fields h
    exact ⟨h2, extra, h4⟩
  · intro O b b' path h
    obtain ⟨_, h2, _, _, extra, h4⟩ := run_script_fields h
    exact ⟨h2, extra, h4⟩

/-- C8 witness: after feeding a descriptor-code expression whose
evaluation registered a resource, the queue is empty. -/
theorem c8_queue_drained_witness :
    feed configRegOracle ThemeBuilder.new (.expression ['1'] 3) "/t/m.txt" =
      .ok ⟨[[]], [], [], false, [], []⟩ ∧
    (⟨[[]], [], [], false, [], []⟩ : ThemeBuilder).pending = [] :=
  ⟨rfl, c8_queue_drained_only_for_descriptor_expressions.1 configRegOracle
    ThemeBuilder.new ⟨[[]], [], [], false, [], []⟩ ['1'] 3 "/t/m.txt" rfl⟩

/-- C7 counterexample: feeding an Unknown directive is not invisible — the
builder emits the directive back into the expanded output as the comment
line `; #foo bar` with its own newline, so the claim that every directive
(Include, Resource, or Unknown) leaves no trace in the expanded output is
false. -/
theorem c7_unknown_directive_visible_counterexample :
    feed trivialOracle ThemeBuilder.new
      (.directive (.unknown "foo".toList " bar".toList)) "/t/m.txt" =
      .ok { ThemeBuilder.new with
            skip_next_newline := true,
            parts := ["; #foo bar\n".toList] } ∧
    ["; #foo bar\n".toList] ≠ ThemeBuilder.new.parts :=
  ⟨rfl, by decide⟩

/-- C7 amended: a Resource directive and a *fed* Include directive
(script or configuration target) emit nothing and suppress the following
Newline item; an Unknown directive also suppresses the following Newline
but emits `; #name rest\n` as a comment line; a Newline is emitted exactly
when the suppress flag is clear; and an `#include` of a *descriptor* file
is expanded recursively without being fed to the builder, so the Newline
after it is not suppressed (concretely, `"#include \"inc.txt\"\nX"` with
`inc.txt` containing `A` expands to `"A\nX"`, keeping the newline). -/
theorem c7_directive_newline_amended :
    (∀ (O : Oracles) (b : ThemeBuilder) (pattern dest path : String),
      ∃ b', feed O b (.directive (.resource pattern dest)) path = .ok b' ∧
        b'.parts = b.parts ∧ b'.skip_next_newline = true) ∧
    (∀ (O : Oracles) (b b' : ThemeBuilder) (p path : String),
      feed O b (.directive (.includeFile p)) path = .ok b' →
      b'.parts = b.parts ∧ b'.skip_next_newline = true) ∧
    (∀ (O : Oracles) (b : ThemeBuilder) (name contents : List Char)
      (path : String),
      feed O b (.directive (.unknown name contents)) path =
        .ok { b with
              skip_next_newline := true,
              parts := b.parts ++
                [';' :: ' ' :: '#' :: (name ++ contents ++ ['\n'])] }) ∧
    (∀ (O : Oracles) (b : ThemeBuilder) (path : String),
      (b.skip_next_newline = true →
        feed O b .newline path = .ok { b with skip_next_newline := false }) ∧
      (b.skip_next_newline = false →
        feed O b .newline path =
          .ok { b with parts := b.parts ++ [['\n']] })) ∧
    preprocess includeOracle 10 "/t/main.txt" = .ok ("A\nX".toList, [], []) := by
  refine ⟨?_, ?_, ?_, ?_, by rfl⟩
  · intro O b pattern dest path
    exact feed_resource_directive_state O b pattern dest path
  · intro O b b' p path h
    exact feed_include_ok_state h
  · intro O b name contents path
    exact feed_unknown_directive_state O b name contents path
  · intro O b path
    exact ⟨feed_newline_skip O b path, feed_newline_emit O b path⟩

/-- C7 witness: the newline clause of the amended theorem at a concrete
builder with the suppress flag clear. -/
theorem c7_directive_newline_amended_witness :
    feed trivialOracle ThemeBuilder.new .newline "/p" =
      .ok { ThemeBuilder.new with parts := [['\n']] } := by
  have h := (c7_directive_newline_amended.2.2.2.1 trivialOracle
    ThemeBuilder.new "/p").2 rfl
  exact h

/-- Filesystem oracle holding one plain descriptor file. -/
def plainFileOracle : Oracles :=
  { eval := fun _ => ([], .ok .nil), exec := fun _ => ([], .ok ()),
    globMatches := fun _ => [], iniFs := fun _ => none,
    fs := fun p => if p = "/w/p.txt" then some "ab\n; c\n" else none }

/-- C2: for every descriptor text that parses successfully and whose item
list holds no directive, concatenating the Code, Comment, Newline and
Expression items in document order (expressions re-wrapped in `#{` and
`}`) reproduces the source text exactly; consequently a descriptor with
no directives and no expressions preprocesses to byte-identical
output. -/
theorem c2_roundtrip_and_byte_identity :
    (∀ (s : List Char) (items : List RtconfigContent),
      parse_rtconfig s = some items →
      (∀ x ∈ items, x.isDirective = false) →
      renderContents items = s) ∧
    (∀ (O : Oracles) (fuel : Nat) (path : String) (text : String)
      (items : List RtconfigContent),
      O.fs path = some text →
      parse_rtconfig text.toList = some items →
      (∀ x ∈ items, plainContent x = true) →
      items.length < fuel →
      _preprocess O fuel ThemeBuilder.new path =
        .ok { ThemeBuilder.new with parts := items.map renderContent } ∧
      ThemeBuilder.rtconfig
        { ThemeBuilder.new with parts := items.map renderContent } =
        text.toList) := by
  constructor
  · exact fun s items h hnd => parse_rtconfig_roundtrip h hnd
  · intro O fuel path text items hfs hp hplain hfuel
    constructor
    · unfold _preprocess
      rw [hfs]
      show (match parse_rtconfig text.toList with
        | none => Except.error (PreprocessError.rtconfigParseError path)
        | some items =>
            processContents O fuel ThemeBuilder.new path
              (annotateContents 1 items)) = _
      rw [hp]
      show processContents O fuel ThemeBuilder.new path
        (annotateContents 1 items) = _
      have := processContents_plain O path items fuel 1 ThemeBuilder.new
        hfuel hplain rfl
      simpa using this
    · show (items.map renderContent).flatten = text.toList
      have hnd : ∀ x ∈ items, x.isDirective = false := by
        intro x hx
        have := hplain x hx
        cases x <;> simp_all [plainContent, RtconfigContent.isDirective]
      exact parse_rtconfig_roundtrip hp hnd

/-- C2 witness: the round trip at a concrete parsed descriptor, and
byte-identical preprocessing of a concrete plain descriptor file. -/
theorem c2_roundtrip_and_byte_identity_witness :
    renderContents [RtconfigContent.code "foo ".toList,
      RtconfigContent.expression " 1 + 1 ".toList, RtconfigContent.newline,
      RtconfigContent.comment "; hi".toList, RtconfigContent.newline] =
      "foo #\x7b 1 + 1 \x7d\n; hi\n".toList ∧
    _preprocess plainFileOracle 9 ThemeBuilder.new "/w/p.txt" =
      .ok { ThemeBuilder.new with parts :=
        [RtconfigContent.code "ab".toList, RtconfigContent.newline,
          RtconfigContent.comment "; c".toList,
          RtconfigContent.newline].map renderContent } :=
  ⟨c2_roundtrip_and_byte_identity.1 "foo #\x7b 1 + 1 \x7d\n; hi\n".toList
      [RtconfigContent.code "foo ".toList,
        RtconfigContent.expression " 1 + 1 ".toList, RtconfigContent.newline,
        RtconfigContent.comment "; hi".toList, RtconfigContent.newline]
      (by rfl) (by decide),
    (c2_roundtrip_and_byte_identity.2 plainFileOracle 9 "/w/p.txt" "ab\n; c\n"
      [RtconfigContent.code "ab".toList, RtconfigContent.newline,
        RtconfigContent.comment "; c".toList, RtconfigContent.newline]
      (by rfl) (by rfl) (by decide) (by decide)).1⟩
